import Mathlib

/-!
Verification development for the `pest_auto_report` repository.

This file gives a shallow embedding, in Lean 4, of the parts of the
repository that the specification's claims are about:

* `src/core/qbench_client.py` — the resilient request loop (`_request`),
  the weight-extraction helpers (`normalize_output`, `search_container`)
  and the batch sample-id extraction (`_extract_sample_ids_from_batch`);
* `src/app/services/ps_processing.py` — the state-limit table, the
  component-name canonicalizations, the significant-figure formatter
  (`_format_sigfigs_no_sci`), the final-result classifier
  (`_compute_final_result`), and the batch engine
  (`process_batch_dataframe`, `build_full_analyte_table`).

Modelling conventions, used throughout:

* Python floats are modelled as exact rationals (`ℚ`) together with an
  explicit not-a-number marker (`FVal.nan`).  IEEE rounding error and the
  infinities are outside the model; the spec's claims are about decimal
  data, all of which is exactly representable.
* Python strings are UTF-8 strings; the character-level helpers are
  defined on `List Char` and wrapped.  Python's `\s` and `str.strip`
  whitespace classes are modelled by the ASCII whitespace characters.
* `math.floor(math.log10 x)` on a positive rational is exactly
  `Int.log 10 x` (witnessed by `Int.zpow_log_le_self` /
  `Int.lt_zpow_succ_log_self`), which is how it is embedded.
* Python's `round` and `"%.Nf"` formatting round half-to-even; they are
  embedded by the exact half-to-even rounding `roundHalfEven`.
* JSON-ish payload values are modelled by the inductive `JVal`.  `None`
  is `JVal.jnull`; Python `bool` keys/values do not occur in any claim
  and are omitted from the model.
* Python dicts are modelled as association lists in insertion order with
  unique keys; `dict.get` takes the first match, and dict-comprehension
  key collisions are modelled by a last-match lookup where the source
  builds a dict from a list.
-/

/-! ## Character and string helpers -/

/-- The ASCII whitespace characters recognized by Python's `str.strip()`
and by the regex class `\s` (restricted to ASCII). -/
def isPySpace (c : Char) : Bool :=
  c = ' ' || c = '\t' || c = '\n' || c = '\x0d' || c = '\x0b' || c = '\x0c'

/-- `str.strip()` on a character list: drop leading and trailing
whitespace. -/
def stripChars (l : List Char) : List Char :=
  ((l.dropWhile isPySpace).reverse.dropWhile isPySpace).reverse

/-- `str.strip()` on strings. -/
def pyStrip (s : String) : String :=
  String.mk (stripChars s.toList)

/-- `str.rstrip(c)` for a single character `c`: drop trailing copies of
`c`. -/
def pyRstrip (s : String) (c : Char) : String :=
  String.mk (s.toList.rdropWhile (· == c))

/-- `str.lower()` (ASCII). -/
def pyLower (s : String) : String :=
  String.mk (s.toList.map Char.toLower)

/-- Python's substring test `needle in hay` on character lists. -/
def containsSub (needle : List Char) : List Char → Bool
  | [] => needle.isEmpty
  | c :: rest => needle.isPrefixOf (c :: rest) || containsSub needle rest

/-- First-seen-order deduplication as Python's `dict.fromkeys` /
"seen"-set loops perform it: fold left, appending an element only if it
has not appeared yet.  This is the executable form used by the
embeddings. -/
def pyDedup (l : List String) : List String :=
  l.foldl (fun acc x => if acc.contains x then acc else acc ++ [x]) []

/-- First-seen-order deduplication, specification form: keep the head,
drop every later occurrence, recurse. -/
def dedupFirst : List String → List String
  | [] => []
  | x :: xs => x :: dedupFirst (xs.filter (fun y => !(y == x)))
termination_by l => l.length
decreasing_by
  simp only [List.length_cons]
  exact Nat.lt_succ_of_le (List.length_filter_le _ _)

/-! ## Python float values -/

/-- A Python float, modelled exactly: either NaN or a rational number.
(The infinities never arise in the claims and are outside the model.) -/
inductive FVal where
  | nan : FVal
  | num : ℚ → FVal
deriving DecidableEq, Repr

/-- `math.isnan`. -/
def FVal.isNan : FVal → Bool
  | .nan => true
  | .num _ => false

/-- The rational carried by a finite value, `none` for NaN.  This models
pandas' `dropna` test. -/
def FVal.toOption : FVal → Option ℚ
  | .nan => none
  | .num q => some q

/-- `float(s)` on an already comma-stripped, whitespace-stripped string:
parse an optional sign, then either `nan`, or a decimal number
`digits[.digits][e[sign]digits]` with at least one digit in the
mantissa.  Any other input raises in Python, here `none`.  (The IEEE
infinities accepted by Python are outside the model.) -/
def pyFloatOfString (s : String) : Option FVal :=
  let l := (pyLower s).toList
  let core : List Char → Option FVal := fun l =>
    if l = ['n', 'a', 'n'] then some .nan
    else
      let intPart := l.takeWhile Char.isDigit
      let rest := l.dropWhile Char.isDigit
      let fracPart :=
        match rest with
        | '.' :: t => some (t.takeWhile Char.isDigit)
        | _ => none
      let rest2 :=
        match rest with
        | '.' :: t => t.dropWhile Char.isDigit
        | _ => rest
      let digitsVal : List Char → ℕ :=
        fun ds => ds.foldl (fun a c => 10 * a + (c.toNat - 48)) 0
      let mantissa : ℚ :=
        (digitsVal intPart : ℚ) +
          (match fracPart with
           | some f => (digitsVal f : ℚ) / 10 ^ f.length
           | none => 0)
      let haveDigits :=
        !intPart.isEmpty ||
          (match fracPart with | some f => !f.isEmpty | none => false)
      match rest2 with
      | [] => if haveDigits then some (.num mantissa) else none
      | 'e' :: t =>
        let (esign, t2) :=
          match t with
          | '+' :: u => ((1 : ℤ), u)
          | '-' :: u => ((-1 : ℤ), u)
          | u => ((1 : ℤ), u)
        if haveDigits && !t2.isEmpty && t2.all Char.isDigit then
          some (.num (mantissa * 10 ^ (esign * (digitsVal t2 : ℕ))))
        else none
      | _ => none
  match l with
  | '+' :: t => core t
  | '-' :: t => (core t).map (fun v => match v with | .nan => .nan | .num q => .num (-q))
  | t => core t

/-! ## JSON-ish payload values (`qbench_client` inputs) -/

/-- A JSON-like Python value as the QBench client sees it. -/
inductive JVal where
  | jnull : JVal
  | jstr : String → JVal
  | jint : ℤ → JVal
  | jfloat : ℚ → JVal
  | jlist : List JVal → JVal
  | jdict : List (String × JVal) → JVal

/-- `dict.get k`: first value stored under key `k`, if any. -/
def jGet (d : List (String × JVal)) (k : String) : Option JVal :=
  (d.find? (fun kv => kv.1 == k)).map (fun kv => kv.2)

/-- Key-presence test `k in dict`. -/
def jHasKey (d : List (String × JVal)) (k : String) : Bool :=
  (d.find? (fun kv => kv.1 == k)).isSome

/-- Python truthiness of an optional payload value (used for the
`relationships.get("samples") or relationships.get("sample")`
fall-through). -/
def jTruthy : Option JVal → Bool
  | none => false
  | some .jnull => false
  | some (.jstr s) => !s.isEmpty
  | some (.jint n) => n ≠ 0
  | some (.jfloat q) => q ≠ 0
  | some (.jlist l) => !l.isEmpty
  | some (.jdict d) => !d.isEmpty

/-! ## `QBenchClient._request` — the resilient request loop

`src/core/qbench_client.py`, lines 76-120.  The loop sends up to `tries`
attempts.  The scripted outcome of attempt `k` (0-based) is
`script k`.  Authentication always succeeds in the model (the claim
under study is about post-response behaviour only; a 401 clears the
token, and the next loop iteration re-authenticates successfully).
`method`, `path`, `params`, `json` and `data` only parametrize the URL,
message texts and request body, never the control flow, so they are not
part of the model.

A key fact of the source: `resp.raise_for_status()` raises
`requests.HTTPError` for any status in 400..599, and `HTTPError` is a
subclass of `requests.RequestException`, so the raise is caught by the
generic `except requests.RequestException` handler of the same loop
body. -/

/-- The transport-level outcome of one attempt: a response with a status
code (and, for 429, the optional integer value of the
`X-QBAPI-Throttle-TTL` header; `none` also covers a falsy header
string), a timeout, or another network error. -/
inductive HttpOutcome where
  | resp : ℕ → Option ℤ → HttpOutcome
  | timeout : HttpOutcome
  | netError : HttpOutcome

/-- The observable result of `_request`: a returned response's status,
or a raised `QBenchError` — either one wrapping the last underlying
exception (`Solicitud falló: ...`) or the attempts-exhausted error
(`Fallo tras {tries} intentos: ...`). -/
inductive ReqResult where
  | ok : ℕ → ReqResult
  | errWrapped : ReqResult
  | errExhausted : ReqResult
deriving DecidableEq, Repr

/-- The `while attempt < tries` loop of `_request`.  `k` is the 0-based
index of the next attempt, `remaining = tries - k`, `delay` is the
current backoff delay, and `sleeps` accumulates every `time.sleep`
duration in order.  Inside an attempt: a 429 sleeps `ttl+1` (or the
current delay when the header is absent/falsy) and retries; a 401
clears the credential, sleeps the delay and retries; any other status
in 400..599 raises `HTTPError`, which the generic network-error handler
catches — re-raised wrapped if this was the last attempt, otherwise
sleep-and-retry; any other status is returned; a timeout always
sleeps-and-retries; another network error behaves like the caught
`HTTPError`.  Each sleep is followed by `delay *= backoff` with
`backoff = 2`. -/
def reqLoop (script : ℕ → HttpOutcome) : ℕ → ℕ → ℚ → List ℚ → ReqResult × List ℚ
  | _, 0, _, sleeps => (.errExhausted, sleeps)
  | k, r + 1, delay, sleeps =>
    match script k with
    | .resp s ttl =>
      if s = 429 then
        reqLoop script (k + 1) r (delay * 2)
          (sleeps ++ [match ttl with | some t => (t : ℚ) + 1 | none => delay])
      else if s = 401 then
        reqLoop script (k + 1) r (delay * 2) (sleeps ++ [delay])
      else if 400 ≤ s ∧ s < 600 then
        if r = 0 then (.errWrapped, sleeps)
        else reqLoop script (k + 1) r (delay * 2) (sleeps ++ [delay])
      else (.ok s, sleeps)
    | .timeout =>
      reqLoop script (k + 1) r (delay * 2) (sleeps ++ [delay])
    | .netError =>
      if r = 0 then (.errWrapped, sleeps)
      else reqLoop script (k + 1) r (delay * 2) (sleeps ++ [delay])

/-- `_request` with its default arguments `tries=5`, `delay=1.0`. -/
def request (script : ℕ → HttpOutcome) : ReqResult × List ℚ :=
  reqLoop script 0 5 1 []

/-! ## `_extract_sample_weight` helpers

`src/core/qbench_client.py`, lines 182-190 (`normalize_output`) and
lines 258-281 (`search_container` and the fallback-container loop). -/

/-- `normalize_output`: `None` → `''`; ints and floats pass through
unchanged; dicts and lists → `''`; anything else is stringified and
stripped of surrounding whitespace (on a string, `str` is the
identity). -/
def normalize_output : JVal → JVal
  | .jnull => .jstr ""
  | .jint n => .jint n
  | .jfloat q => .jfloat q
  | .jdict _ => .jstr ""
  | .jlist _ => .jstr ""
  | .jstr s => .jstr (pyStrip s)

/-- The `normalized != ''` test of the source (only the empty string is
equal to `''`). -/
def JVal.isEmptyStr : JVal → Bool
  | .jstr s => s.isEmpty
  | _ => false

/-- The scan inside `search_container`: walk the container's items in
order; for a key whose lowercase form contains `"weight"` or `"peso"`,
normalize the value and return it unless it normalized to `''`. -/
def searchContainerItems : List (String × JVal) → JVal
  | [] => .jstr ""
  | (k, v) :: rest =>
    let lower := (pyLower k).toList
    if containsSub "weight".toList lower || containsSub "peso".toList lower then
      let normalized := normalize_output v
      if normalized.isEmptyStr then searchContainerItems rest else normalized
    else searchContainerItems rest

/-- `search_container`: `''` for anything that is not a dict, otherwise
the item scan. -/
def search_container : JVal → JVal
  | .jdict items => searchContainerItems items
  | _ => .jstr ""

/-! ## `_extract_sample_ids_from_batch`

`src/core/qbench_client.py`, lines 282-341. -/

/-- `str(int(f))` for a Python float `f`: truncation toward zero. -/
def ratTrunc (q : ℚ) : ℤ :=
  if q < 0 then -((-q).num.ediv ((-q).den : ℤ)) else q.num.ediv (q.den : ℤ)

/-- The string a candidate is reduced to by `add`: numeric scalars via
`str(int(candidate))`, `None` via the `candidate is not None` guard to
`""`, strings via `str(candidate).strip()`.  A dict or list candidate
stringifies to its (non-empty) `repr`; the exact repr text is not
load-bearing for any claim and is modelled structurally. -/
def candidateToString : JVal → String
  | .jint n => toString n
  | .jfloat q => toString (ratTrunc q)
  | .jnull => ""
  | .jstr s => pyStrip s
  | .jdict _ => "<dict>"
  | .jlist _ => "<list>"

/-- `add`: skip empty strings, append first occurrences only (the
source's `seen` set always holds exactly the strings of `ids`). -/
def addCandidate (ids : List String) (c : JVal) : List String :=
  let s := candidateToString c
  if s = "" then ids
  else if ids.contains s then ids
  else ids ++ [s]

/-- Items of `payload.get(k)` when that value is a list, else `[]`. -/
def jListItems (d : List (String × JVal)) (k : String) : List JVal :=
  match jGet d k with
  | some (.jlist xs) => xs
  | _ => []

/-- The candidate drawn from one entry of a `samples` /
`sample_records` / `sample_list` list: scalars directly; dicts through
the first present alias among `id`, `sample_id`, `sample`; anything
else contributes nothing. -/
def sampleObjCandidate : JVal → Option JVal
  | .jstr s => some (.jstr s)
  | .jint n => some (.jint n)
  | .jfloat q => some (.jfloat q)
  | .jdict d =>
    if jHasKey d "id" then some ((jGet d "id").getD .jnull)
    else if jHasKey d "sample_id" then some ((jGet d "sample_id").getD .jnull)
    else if jHasKey d "sample" then some ((jGet d "sample").getD .jnull)
    else none
  | _ => none

/-- Candidates from the `relationships` block: `relationships.samples`
(falling back to `relationships.sample` when falsy) must be a dict whose
`data` is a list; each dict entry with an `id` key contributes it. -/
def relationshipCandidates (d : List (String × JVal)) : List JVal :=
  match jGet d "relationships" with
  | some (.jdict r) =>
    let relSamples :=
      if jTruthy (jGet r "samples") then jGet r "samples" else jGet r "sample"
    match relSamples with
    | some (.jdict rs) =>
      match jGet rs "data" with
      | some (.jlist entries) =>
        entries.filterMap (fun e =>
          match e with
          | .jdict ed => if jHasKey ed "id" then some ((jGet ed "id").getD .jnull) else none
          | _ => none)
      | _ => []
    | _ => []
  | _ => []

/-- Candidates from the `included` resources: dict entries whose `type`
is `"sample"` or `"samples"` and which have an `id` key. -/
def includedCandidates (d : List (String × JVal)) : List JVal :=
  match jGet d "included" with
  | some (.jlist entries) =>
    entries.filterMap (fun e =>
      match e with
      | .jdict ed =>
        (match jGet ed "type" with
         | some (.jstr t) =>
           if (t == "sample" || t == "samples") && jHasKey ed "id"
           then some ((jGet ed "id").getD .jnull)
           else none
         | _ => none)
      | _ => none)
  | _ => []

/-- All candidate values passed to `add`, in the order the source scans
them: the scalar-id lists, the sample-object lists, the relationship
entries, the included resources. -/
def batchCandidates (d : List (String × JVal)) : List JVal :=
  jListItems d "sample_ids" ++ jListItems d "sample_ids_ordered"
    ++ (jListItems d "samples" ++ jListItems d "sample_records"
        ++ jListItems d "sample_list").filterMap sampleObjCandidate
    ++ relationshipCandidates d
    ++ includedCandidates d

/-- The `data` unwrap at the top of `_extract_sample_ids_from_batch`:
a dict-valued `data` entry replaces the payload. -/
def batchPayloadDict (pl0 : List (String × JVal)) : List (String × JVal) :=
  match jGet pl0 "data" with
  | some (.jdict d) => d
  | _ => pl0

/-- `_extract_sample_ids_from_batch`: non-dict payloads yield `[]`; a
dict-valued `data` key replaces the payload; then every recognized
shape feeds `add` in order. -/
def extract_sample_ids_from_batch : JVal → List String
  | .jdict pl0 => (batchCandidates (batchPayloadDict pl0)).foldl addCandidate []
  | _ => []

/-- All candidate values a payload feeds to `add`, in scan order
(`[]` for a non-dict payload). -/
def allBatchCandidates : JVal → List JVal
  | .jdict pl0 => batchCandidates (batchPayloadDict pl0)
  | _ => []

/-! ## `ps_processing` constants

`src/app/services/ps_processing.py`, lines 13-77.  The decimal limit
values are written as explicit normalized rationals (`Rat.mk'`) so that
they are kernel-computable: `0.5 = mk' 1 2`, `0.4 = mk' 2 5`,
`0.2 = mk' 1 5`, `1.0 = 1`, `2.0 = 2`. -/

/-- The limit of quantitation, `LOQ = 0.1`. -/
def LOQ : ℚ := Rat.mk' 1 10

/-- `STATE_LIMITS`: the fixed analyte → regulatory-limit mapping, in
source order. -/
def STATE_LIMITS : List (String × ℚ) := [
  ("Abamectin", Rat.mk' 1 2),
  ("Acephate", Rat.mk' 2 5),
  ("Acequinocyl", 2),
  ("Acetamiprid", Rat.mk' 1 5),
  ("Aldicarb", Rat.mk' 2 5),
  ("Azoxystrobin", Rat.mk' 1 5),
  ("Bifenazate", Rat.mk' 1 5),
  ("Bifenthrin", Rat.mk' 1 5),
  ("Boscalid", Rat.mk' 2 5),
  ("Carbaryl", Rat.mk' 1 5),
  ("Carbofuran", Rat.mk' 1 5),
  ("Chlorantraniliprole", Rat.mk' 1 5),
  ("Chlorfenapyr", 1),
  ("Chlorpyrifos", Rat.mk' 1 5),
  ("Clofentezine", Rat.mk' 1 5),
  ("Cyfluthrin", 1),
  ("Cypermethrin", 1),
  ("Daminozide", 1),
  ("Diazinon", Rat.mk' 1 5),
  ("Dichlorvos", 1),
  ("Dimethoate", Rat.mk' 1 5),
  ("Ethoprophos", Rat.mk' 1 5),
  ("Etofenprox", Rat.mk' 2 5),
  ("Etoxazole", Rat.mk' 1 5),
  ("Fenoxycarb", Rat.mk' 1 5),
  ("Fenpyroximate", Rat.mk' 2 5),
  ("Fipronil", Rat.mk' 2 5),
  ("Flonicamid", 1),
  ("Fludioxonil", Rat.mk' 2 5),
  ("Hexythiazox", 1),
  ("Imazalil", Rat.mk' 1 5),
  ("Imidacloprid", Rat.mk' 2 5),
  ("Kresoxim-methyl", Rat.mk' 2 5),
  ("Malathion A", Rat.mk' 1 5),
  ("Metalaxyl", Rat.mk' 1 5),
  ("Methiocarb", Rat.mk' 1 5),
  ("Methomyl", Rat.mk' 2 5),
  ("Methyl parathion", Rat.mk' 1 5),
  ("MGK 264", Rat.mk' 1 5),
  ("Myclobutanil", Rat.mk' 1 5),
  ("Naled", Rat.mk' 1 2),
  ("Oxamyl", 1),
  ("Paclobutrazol", Rat.mk' 2 5),
  ("Permethrins*", Rat.mk' 1 5),
  ("Phosmet", Rat.mk' 1 5),
  ("Piperonyl butoxide", 2),
  ("Prallethrin", Rat.mk' 1 5),
  ("Propiconazole", Rat.mk' 2 5),
  ("Propoxure", Rat.mk' 1 5),
  ("Pyrethrins*", 1),
  ("Pyridaben", Rat.mk' 1 5),
  ("Spinosad*", Rat.mk' 1 5),
  ("Spiromesifen", Rat.mk' 1 5),
  ("Spirotetramat", Rat.mk' 1 5),
  ("Spiroxamine", Rat.mk' 2 5),
  ("Tebuconazole", Rat.mk' 2 5),
  ("Thiacloprid", Rat.mk' 1 5),
  ("Thiamethoxam", Rat.mk' 1 5),
  ("Trifloxystrobin", Rat.mk' 1 5)]

/-- `STATE_LIMITS.get(analyte)`: first-match association lookup (dict
keys are unique). -/
def stateLimitOf (analyte : String) : Option ℚ :=
  ((STATE_LIMITS.find? (fun kv => kv.1 == analyte)).map (fun kv => kv.2))

/-- `ANALYTES = list(STATE_LIMITS.keys())`. -/
def ANALYTES : List String := STATE_LIMITS.map (fun kv => kv.1)

/-! ## Component-name canonicalizations -/

/-- `map_component_to_analyte` (lines 132-134): strip the name, and when
the stripped name ends with the exact two characters `" 1"`, drop those
two characters and strip again; otherwise return the stripped name
unchanged.  (`t.endswith(" 1")` holds exactly when the last two
characters, most recent first, are `'1'` then `' '`.) -/
def map_component_to_analyte (name : String) : String :=
  let t := stripChars name.toList
  if t.reverse.take 2 = ['1', ' '] then String.mk (stripChars (t.take (t.length - 2)))
  else String.mk t

/-- The substitution `re.sub(r'\s+\d+$', '', name)`: when the name ends
with at least one digit immediately preceded by at least one whitespace
character, remove that maximal trailing whitespace-then-digits block;
otherwise leave the name unchanged. -/
def stripTrailingWsDigits (l : List Char) : List Char :=
  let afterDigits := l.rdropWhile Char.isDigit
  if afterDigits.length = l.length then l
  else
    let afterWs := afterDigits.rdropWhile isPySpace
    if afterWs.length = afterDigits.length then l
    else afterWs

/-- `_normalize_component_name` (lines 301-303): strip, then remove a
trailing `\s+\d+` block. -/
def normalize_component_name (name : String) : String :=
  String.mk (stripTrailingWsDigits (stripChars name.toList))

/-! ## The significant-figure formatter

`_format_sigfigs_no_sci`, lines 171-180.  `math.floor(math.log10 |v|)`
is embedded as `Int.log 10 |v|`; Python's `round(v, decimals)` and
`f"{v:.{d}f}"` round half-to-even and are embedded exactly. -/

/-- Round a rational to the nearest integer, ties to even (Python's
`round` at precision 0, and the rounding of `%.Nf` formatting). -/
def roundHalfEven (q : ℚ) : ℤ :=
  let f := ⌊q⌋
  if q - f < Rat.mk' 1 2 then f
  else if Rat.mk' 1 2 < q - f then f + 1
  else if f % 2 = 0 then f else f + 1

/-- Python's `round(value, decimals)` (with possibly negative
`decimals`): half-to-even at the given decimal place. -/
def roundTo (q : ℚ) (decimals : ℤ) : ℚ :=
  (roundHalfEven (q * 10 ^ decimals) : ℚ) / 10 ^ decimals

/-- The most-significant-first decimal digit characters of a natural
number (`[]` for 0). -/
def natDigitsMsb (m : ℕ) : List Char :=
  ((Nat.digits 10 m).map Nat.digitChar).reverse

/-- The decimal rendering of a natural number (`"0"` for 0). -/
def natLitStr (m : ℕ) : String :=
  if m = 0 then "0" else String.mk (natDigitsMsb m)

/-- The fractional field of `%.df` formatting: the value `k < 10^d`
rendered with exactly `d` digits (left zero padding). -/
def padFrac (d : ℕ) (k : ℕ) : List Char :=
  List.replicate (d - (natDigitsMsb k).length) '0' ++ natDigitsMsb k

/-- `f"{q:.{d}f}"`: fixed-point decimal formatting with exactly `d`
fractional digits, half-to-even. -/
def formatFixed (q : ℚ) (d : ℕ) : String :=
  let n := roundHalfEven (q * 10 ^ d)
  let sign := if n < 0 then "-" else ""
  let m := n.natAbs
  if d = 0 then sign ++ natLitStr m
  else sign ++ natLitStr (m / 10 ^ d) ++ "." ++ String.mk (padFrac d (m % 10 ^ d))

/-- The tail of `_format_sigfigs_no_sci` once `rounded` and `decimals`
are computed: for positive `decimals`, fixed formatting followed by
`rstrip("0").rstrip(".")` with the `s or "0"` guard; otherwise
`f"{rounded:.0f}"`. -/
def formatCore (rounded : ℚ) (decimals : ℤ) : String :=
  if 0 < decimals then
    let s := pyRstrip (pyRstrip (formatFixed rounded decimals.toNat) '0') '.'
    if s = "" then "0" else s
  else formatFixed rounded 0

/-- `_format_sigfigs_no_sci(value, sig)`: `"0"` for zero or non-finite
values; otherwise round to `sig` significant figures and render in
plain decimal notation, stripping trailing fractional zeros and a
trailing point. -/
def format_sigfigs_no_sci (value : FVal) (sig : ℕ) : String :=
  match value with
  | .nan => "0"
  | .num q =>
    if q = 0 then "0"
    else
      let power : ℤ := Int.log 10 |q|
      let decimals : ℤ := (sig : ℤ) - 1 - power
      formatCore (roundTo q decimals) decimals

/-! ## Final-result classification -/

/-- The `df_value` defaulting inside `_compute_final_result` (lines
190-192): a missing or NaN dilution factor is replaced by `0.0`. -/
def dilutionDefaultZero (dilution_factor : Option FVal) : ℚ :=
  match dilution_factor with
  | none => 0
  | some .nan => 0
  | some (.num d) => d

/-- `_compute_final_result` (lines 183-196): `"0"` for a missing/NaN
amount; `"ND"` for a zero amount; `"Invalid Mass"` for a missing,
non-numeric (NaN) or non-positive mass; otherwise
`result = (amount / mass_mg) * dilution_factor` with a missing/NaN
dilution factor replaced by `0.0` (`dilutionDefaultZero`), classified
`"ND"` below `LOQ` and formatted to 3 significant figures otherwise. -/
def compute_final_result (amount : FVal) (mass_mg : Option FVal)
    (dilution_factor : Option FVal) : String :=
  match amount with
  | .nan => "0"
  | .num a =>
    if a = 0 then "ND"
    else
      match mass_mg with
      | none => "Invalid Mass"
      | some .nan => "Invalid Mass"
      | some (.num m) =>
        if m ≤ 0 then "Invalid Mass"
        else
          let result := (a / m) * dilutionDefaultZero dilution_factor
          if result < LOQ then "ND"
          else format_sigfigs_no_sci (.num result) 3

/-- `_status_from_final` (lines 199-211). -/
def status_from_final (analyte : String) (finalResult : String) : String :=
  if finalResult = "ND" then "Pass"
  else if finalResult = "-" || finalResult = "Invalid Mass"
      || finalResult = "Invalid Amt" || finalResult = "Error"
      || finalResult = "" then "-"
  else
    match pyFloatOfString finalResult with
    | none => "Error"
    | some numeric =>
      match stateLimitOf analyte with
      | none => "-"
      | some limit =>
        match numeric with
        | .nan => "Pass"
        | .num v => if limit < v then "Fail" else "Pass"

/-- `_compute_dilution_recommendation` (lines 214-217): `"-"` for a
missing/NaN concentration or one at most 200, else
`str(int(math.ceil(calc_conc / 200)))`. -/
def compute_dilution_recommendation (calcConc : FVal) : String :=
  match calcConc with
  | .nan => "-"
  | .num q => if q ≤ 200 then "-" else toString ⌈q / 200⌉

/-! ## The batch engine -/

/-- One normalized raw-reading row (the columns of the dataframe that
`process_batch_dataframe` consumes). -/
structure Row where
  sample : String
  component : String
  calc_conc : FVal
  dilution_factor : FVal
  includeFlag : Bool
deriving DecidableEq, Repr

/-- The weight value held in a sample-info record: the weight-extraction
heuristic returns either a numeric or a string value (its `''` default
is the empty string). -/
inductive WeightVal where
  | wnum : ℚ → WeightVal
  | wstr : String → WeightVal
deriving DecidableEq, Repr

/-- One entry of the `sample_info` mapping. -/
structure SampleInfo where
  sample_weight : Option WeightVal := none
  batch_number : Option String := none
  sample_name : Option String := none
  custom_formatted_id : Option String := none
  sample_date : Option String := none
deriving DecidableEq, Repr

/-- `ProcessedAnalyte` (lines 82-89). -/
structure ProcessedAnalyte where
  analyte : String
  component : String
  calc_conc : ℚ
  final_result : String
  status : String
  dil : String
deriving DecidableEq, Repr

/-- `ProcessedSample` (lines 92-101). -/
structure ProcessedSample where
  sample : String
  batch_number : Option String
  sample_name : Option String
  custom_formatted_id : Option String
  sample_date : Option String
  dilution_factor : Option ℚ
  mass_mg : Option FVal
  results : List ProcessedAnalyte
deriving DecidableEq, Repr

/-- One display row `{sample, component, status, dil}`. -/
structure DisplayRow where
  sample : String
  component : String
  status : String
  dil : String
deriving DecidableEq, Repr

/-- `BatchProcessOutput` (lines 104-107). -/
structure BatchProcessOutput where
  samples : List ProcessedSample
  display_rows : List DisplayRow
deriving DecidableEq, Repr

/-- `mass_mg` resolution (lines 245-251):
`float(str(mass_value).replace(',', '').strip())` guarded by
`try/except`; a `None` weight is left as `None`.  On an
already-numeric weight `float(str(v))` is the identity. -/
def parseMassMg (w : Option WeightVal) : Option FVal :=
  match w with
  | none => none
  | some (.wnum q) => some (.num q)
  | some (.wstr s) => pyFloatOfString (pyStrip (s.replace "," ""))

/-- `drop_duplicates(subset=[key], keep="first")`: keep each row whose
key has not been seen among the kept rows.  Fold form, mirroring the
seen-set semantics. -/
def dropDupByKey (key : Row → String) (l : List Row) : List Row :=
  (l.foldl (fun acc r =>
      if acc.2.contains (key r) then acc
      else (acc.1 ++ [r], acc.2 ++ [key r])) ([], [])).1

/-- The per-sample body of the `for sample_key in unique_samples` loop
(lines 233-294): filter the include-flagged rows to this sample, drop
rows with NaN concentration, deduplicate by canonical analyte name
keeping the first, and — when rows survive — build the analyte results
and display rows. -/
def processOneSample (dfYes : List Row) (sampleInfo : List (String × SampleInfo))
    (sampleKey : String) : Option (ProcessedSample × List DisplayRow) :=
  let subset0 := dfYes.filter (fun r => r.sample == sampleKey)
  if subset0.isEmpty then none
  else
    let subset1 := subset0.filter (fun r => !r.calc_conc.isNan)
    let subset := dropDupByKey (fun r => map_component_to_analyte r.component) subset1
    if subset.isEmpty then none
    else
      let info := ((sampleInfo.find? (fun kv => kv.1 == sampleKey)).map
        (fun kv => kv.2)).getD {}
      let massMg := parseMassMg info.sample_weight
      let dilutionFactor := (subset.filterMap (fun r => r.dilution_factor.toOption)).head?
      let mkResult : Row → ProcessedAnalyte := fun row =>
        let analyteName := map_component_to_analyte row.component
        let finalResult :=
          compute_final_result row.calc_conc massMg (dilutionFactor.map FVal.num)
        { analyte := analyteName
          component := row.component
          calc_conc := (row.calc_conc.toOption).getD 0
          final_result := finalResult
          status := status_from_final analyteName finalResult
          dil := compute_dilution_recommendation row.calc_conc }
      let results := subset.map mkResult
      let displays := subset.map (fun row =>
        let res := mkResult row
        ({ sample := sampleKey
           component := row.component
           status := res.status
           dil := res.dil } : DisplayRow))
      some
        ({ sample := sampleKey
           batch_number := info.batch_number
           sample_name := info.sample_name
           custom_formatted_id := info.custom_formatted_id
           sample_date := info.sample_date
           dilution_factor := dilutionFactor
           mass_mg := massMg
           results := results }, displays)

/-- `process_batch_dataframe` (lines 220-296): raise a `ValueError`
(modelled as `Except.error` with the source's message) when no row is
include-flagged; otherwise process each first-seen sample key in order,
skipping samples whose rows all drop, and collect the samples and the
flat display rows. -/
def process_batch_dataframe (df : List Row)
    (sampleInfo : List (String × SampleInfo)) :
    Except String BatchProcessOutput :=
  let dfYes := df.filter (fun r => r.includeFlag)
  if dfYes.isEmpty then
    .error "El Excel no contiene filas marcadas como YES."
  else
    let uniqueSamples := pyDedup (dfYes.map (fun r => r.sample))
    let processed := uniqueSamples.filterMap (processOneSample dfYes sampleInfo)
    .ok { samples := processed.map (fun p => p.1)
          display_rows := (processed.map (fun p => p.2)).flatten }

/-! ## The full analyte table -/

/-- One row of the per-sample export table.  The source stores either
the numeric state limit or the string `'N/A'`; that union is modelled
as `Option ℚ` with `none` for `'N/A'`. -/
structure TableRow where
  analyteName : String
  analyteAmount : ℚ
  loq : ℚ
  stateLimit : Option ℚ
  finalResult : String
  status : String
deriving DecidableEq, Repr

/-- The `existing` dict comprehension of `build_full_analyte_table`
keyed by `_normalize_component_name(result.component)`: later entries
overwrite earlier ones, so lookup takes the last match. -/
def lookupLastByNormComponent (results : List ProcessedAnalyte)
    (analyte : String) : Option ProcessedAnalyte :=
  (results.reverse.find? (fun r => normalize_component_name r.component == analyte))

/-- `build_full_analyte_table` (lines 306-334): one row per `ANALYTES`
entry in table order; analytes absent from the sample's results default
to amount `0.0`, final result `"ND"`, status `"Pass"`. -/
def build_full_analyte_table (sample : ProcessedSample) : List TableRow :=
  ANALYTES.map (fun analyte =>
    match lookupLastByNormComponent sample.results analyte with
    | none =>
      { analyteName := analyte
        analyteAmount := 0
        loq := LOQ
        stateLimit := stateLimitOf analyte
        finalResult := "ND"
        status := "Pass" }
    | some result =>
      { analyteName := analyte
        analyteAmount := result.calc_conc
        loq := LOQ
        stateLimit := stateLimitOf analyte
        finalResult := result.final_result
        status := result.status })

/-! ## Specification-side definitions for the formatter claims -/

/-- The value of a most-significant-first list of decimal digit
characters. -/
def decDigitsVal (l : List Char) : ℕ :=
  l.foldl (fun a c => 10 * a + (c.toNat - 48)) 0

/-- Read a plain decimal string (digits, at most one point) back as a
rational number. -/
def parseDecRat (s : String) : ℚ :=
  let l := s.toList
  let ip := l.takeWhile (fun c => !(c == '.'))
  let fp := (l.dropWhile (fun c => !(c == '.'))).drop 1
  (decDigitsVal ip : ℚ) + (decDigitsVal fp : ℚ) / 10 ^ fp.length

/-- Modelled from the spec: the value rounded half-to-even at `sig`
significant figures — the multiple of `10 ^ (log10 value - sig + 1)`
nearest to the value, ties to the even multiple. -/
def roundToSigFigs (sig : ℕ) (q : ℚ) : ℚ :=
  roundTo q ((sig : ℤ) - 1 - Int.log 10 |q|)

/-- Modelled from the spec: a string is a minimal plain-decimal
rendering when it is non-empty, made of decimal digits and at most one
point, never ends in a point, and — whenever it has a fractional part —
does not end in a zero.  (In particular it is never in scientific
notation.) -/
def plainDecimalMinimal (s : String) : Bool :=
  let l := s.toList
  !l.isEmpty && l.all (fun c => c.isDigit || c == '.')
    && (l.count '.' ≤ 1)
    && !(l.getLast? == some '.')
    && (!(l.contains '.') || !(l.getLast? == some '0'))

/-! ## Digit-string lemmas -/

theorem digitChar_toNat_sub (x : ℕ) (hx : x < 10) :
    (Nat.digitChar x).toNat - 48 = x := by
  interval_cases x <;> rfl

theorem digitChar_isDigit (x : ℕ) (hx : x < 10) :
    (Nat.digitChar x).isDigit = true := by
  interval_cases x <;> rfl

theorem decDigitsVal_aux (ds : List ℕ) (a : ℕ) (h : ∀ x ∈ ds, x < 10) :
    List.foldl (fun acc c => 10 * acc + (c.toNat - 48)) a
      ((ds.map Nat.digitChar).reverse)
      = a * 10 ^ ds.length + Nat.ofDigits 10 ds := by
  induction ds generalizing a with
  | nil => simp [Nat.ofDigits]
  | cons x t ih =>
    have hx : x < 10 := h x (List.mem_cons_self x t)
    have ht : ∀ y ∈ t, y < 10 := fun y hy => h y (List.mem_cons_of_mem _ hy)
    simp only [List.map_cons, List.reverse_cons, List.foldl_append, List.foldl_cons,
      List.foldl_nil, List.length_cons, Nat.ofDigits_cons]
    rw [ih a ht, digitChar_toNat_sub x hx]
    ring

theorem decDigitsVal_natDigitsMsb (m : ℕ) :
    decDigitsVal (natDigitsMsb m) = m := by
  have h : ∀ x ∈ Nat.digits 10 m, x < 10 :=
    fun x hx => Nat.digits_lt_base (by norm_num) hx
  have := decDigitsVal_aux (Nat.digits 10 m) 0 h
  simpa [decDigitsVal, natDigitsMsb, Nat.ofDigits_digits] using this

theorem natDigitsMsb_all_digit (m : ℕ) :
    ∀ c ∈ natDigitsMsb m, c.isDigit = true := by
  intro c hc
  simp only [natDigitsMsb, List.mem_reverse, List.mem_map] at hc
  obtain ⟨x, hx, rfl⟩ := hc
  exact digitChar_isDigit x (Nat.digits_lt_base (by norm_num) hx)

theorem natLitStr_toList (m : ℕ) :
    (natLitStr m).toList = if m = 0 then ['0'] else natDigitsMsb m := by
  by_cases h : m = 0 <;> simp [natLitStr, h]

theorem natLitStr_all_digit (m : ℕ) :
    ∀ c ∈ (natLitStr m).toList, c.isDigit = true := by
  intro c hc
  rw [natLitStr_toList] at hc
  by_cases h : m = 0
  · simp [h] at hc; subst hc; rfl
  · simp only [if_neg h] at hc
    exact natDigitsMsb_all_digit m c hc

theorem natLitStr_ne_nil (m : ℕ) : (natLitStr m).toList ≠ [] := by
  rw [natLitStr_toList]
  by_cases h : m = 0
  · simp [h]
  · simp only [if_neg h]
    simp only [natDigitsMsb]
    simp only [ne_eq, List.reverse_eq_nil_iff, List.map_eq_nil_iff]
    exact Nat.digits_ne_nil_iff_ne_zero.mpr h

theorem decDigitsVal_natLitStr (m : ℕ) :
    decDigitsVal (natLitStr m).toList = m := by
  rw [natLitStr_toList]
  by_cases h : m = 0
  · simp [h, decDigitsVal]
  · simp only [if_neg h]
    exact decDigitsVal_natDigitsMsb m

theorem decDigitsVal_replicate_zero (z : ℕ) (l : List Char) :
    decDigitsVal (List.replicate z '0' ++ l) = decDigitsVal l := by
  induction z with
  | zero => simp
  | succ k ih =>
    simpa [decDigitsVal, List.replicate_succ] using ih

theorem decDigitsVal_padFrac (d k : ℕ) :
    decDigitsVal (padFrac d k) = k := by
  simp only [padFrac]
  rw [decDigitsVal_replicate_zero, decDigitsVal_natDigitsMsb]

theorem natDigitsMsb_length_le (d k : ℕ) (hk : k < 10 ^ d) :
    (natDigitsMsb k).length ≤ d := by
  by_cases h : k = 0
  · simp [h, natDigitsMsb]
  · simp only [natDigitsMsb, List.length_reverse, List.length_map]
    rw [Nat.digits_len 10 k (by norm_num) h]
    have := (Nat.lt_pow_iff_log_lt (by norm_num : 1 < 10) h).mp hk
    omega

theorem padFrac_length (d k : ℕ) (hk : k < 10 ^ d) :
    (padFrac d k).length = d := by
  have := natDigitsMsb_length_le d k hk
  simp only [padFrac, List.length_append, List.length_replicate]
  omega

theorem padFrac_all_digit (d k : ℕ) :
    ∀ c ∈ padFrac d k, c.isDigit = true := by
  intro c hc
  simp only [padFrac, List.mem_append, List.mem_replicate] at hc
  rcases hc with ⟨_, rfl⟩ | hc
  · rfl
  · exact natDigitsMsb_all_digit k c hc

theorem isDigit_ne_dot {c : Char} (h : c.isDigit = true) : ¬(c == '.') = true := by
  intro hc
  rw [show c = '.' from (beq_iff_eq.mp hc)] at h
  exact absurd h (by decide)

theorem isDigit_ne_zero_isDigit : ('0' : Char).isDigit = true := by decide

/-! ## Rounding lemmas -/

theorem roundHalfEven_intCast (z : ℤ) : roundHalfEven (z : ℚ) = z := by
  have h : (0 : ℚ) < Rat.mk' 1 2 := by
    norm_num [Rat.mk'_eq_divInt, Rat.divInt_eq_div]
  simp only [roundHalfEven, Int.floor_intCast, sub_self]
  rw [if_pos h]

theorem roundHalfEven_ge_floor (q : ℚ) : ⌊q⌋ ≤ roundHalfEven q := by
  simp only [roundHalfEven]
  repeat' split
  all_goals omega

theorem roundHalfEven_le_floor_add_one (q : ℚ) : roundHalfEven q ≤ ⌊q⌋ + 1 := by
  simp only [roundHalfEven]
  repeat' split
  all_goals omega

theorem roundHalfEven_nonneg (q : ℚ) (hq : 0 ≤ q) : 0 ≤ roundHalfEven q := by
  have h1 := roundHalfEven_ge_floor q
  have h2 : (0 : ℤ) ≤ ⌊q⌋ := Int.floor_nonneg.mpr hq
  omega

/-- Uniqueness of the decimal order of magnitude: if
`10 ^ e ≤ r < 10 ^ (e + 1)` then `Int.log 10 r = e`. -/
theorem logTen_eq (r : ℚ) (e : ℤ) (hr : 0 < r)
    (h1 : (10 : ℚ) ^ e ≤ r) (h2 : r < (10 : ℚ) ^ (e + 1)) :
    Int.log 10 r = e := by
  have hb : (1 : ℕ) < 10 := by norm_num
  have hlow : (10 : ℚ) ^ (Int.log 10 r) ≤ r := by
    simpa using Int.zpow_log_le_self (b := 10) hb hr
  have hhigh : r < (10 : ℚ) ^ (Int.log 10 r + 1) := by
    simpa using Int.lt_zpow_succ_log_self (b := 10) hb r
  by_contra hne
  rcases lt_or_gt_of_ne hne with hlt | hgt
  · have : (10 : ℚ) ^ (Int.log 10 r + 1) ≤ (10 : ℚ) ^ e :=
      zpow_le_zpow_right₀ (by norm_num) (by omega)
    linarith
  · have : (10 : ℚ) ^ (e + 1) ≤ (10 : ℚ) ^ (Int.log 10 r) :=
      zpow_le_zpow_right₀ (by norm_num) (by omega)
    linarith

/-! ## String-shape lemmas for the formatter -/

theorem pyRstrip_toList (s : String) (c : Char) :
    (pyRstrip s c).toList = s.toList.rdropWhile (· == c) := rfl

theorem toList_append (a b : String) : (a ++ b).toList = a.toList ++ b.toList := by
  simp [String.toList]

theorem mk_eq_empty_iff (l : List Char) : String.mk l = "" ↔ l = [] := by
  simp [String.ext_iff]

theorem rdropWhile_decomposition (p : Char → Bool) (l : List Char) :
    l = l.rdropWhile p ++ (l.reverse.takeWhile p).reverse := by
  conv_lhs => rw [← List.reverse_reverse l]
  conv_lhs => rw [← List.takeWhile_append_dropWhile p l.reverse]
  rw [List.reverse_append]
  rfl

theorem rdropWhile_append_char (p : Char → Bool) (a b : List Char) :
    (a ++ b).rdropWhile p =
      if b.rdropWhile p = [] then a.rdropWhile p else a ++ b.rdropWhile p := by
  simp only [List.rdropWhile, List.reverse_append, List.dropWhile_append]
  by_cases h : (b.reverse.dropWhile p).isEmpty
  · rw [if_pos h, if_pos]
    simp only [List.isEmpty_iff] at h
    simp [h]
  · rw [if_neg h, if_neg]
    · simp
    · simp only [List.isEmpty_iff] at h
      simp [h]

theorem rdropWhile_eq_self_of_all (p : Char → Bool) (l : List Char)
    (h : ∀ c ∈ l, ¬p c = true) : l.rdropWhile p = l := by
  rw [List.rdropWhile_eq_self_iff]
  intro hl
  exact h _ (List.getLast_mem hl)

/-- The shape of `formatFixed v d` when `v * 10 ^ d` is the nonnegative
integer `n`. -/
theorem formatFixed_toList (v : ℚ) (d : ℕ) (n : ℤ) (hn : 0 ≤ n)
    (hv : v * 10 ^ d = (n : ℚ)) :
    (formatFixed v d).toList =
      if d = 0 then (natLitStr n.toNat).toList
      else (natLitStr (n.toNat / 10 ^ d)).toList ++
        '.' :: padFrac d (n.toNat % 10 ^ d) := by
  have habs : n.natAbs = n.toNat := by omega
  simp only [formatFixed, hv, roundHalfEven_intCast, habs]
  rw [if_neg (by omega : ¬n < 0)]
  by_cases hd : d = 0
  · simp [hd, toList_append]
  · simp only [if_neg hd]
    simp [toList_append, String.toList]

/-- Reading a pure digit string. -/
theorem parseDecRat_digits (I : List Char) (hI : ∀ c ∈ I, c.isDigit = true) :
    parseDecRat (String.mk I) = (decDigitsVal I : ℚ) := by
  have ht : I.takeWhile (fun c => !(c == '.')) = I :=
    List.takeWhile_eq_self_iff.mpr (fun c hc => by
      simpa using isDigit_ne_dot (hI c hc))
  have hd : I.dropWhile (fun c => !(c == '.')) = [] :=
    List.dropWhile_eq_nil_iff.mpr (fun c hc => by
      simpa using isDigit_ne_dot (hI c hc))
  simp [parseDecRat, ht, hd, decDigitsVal]

/-- Reading a digit string with a single point. -/
theorem parseDecRat_digits_dot (I F : List Char)
    (hI : ∀ c ∈ I, c.isDigit = true) :
    parseDecRat (String.mk (I ++ '.' :: F)) =
      (decDigitsVal I : ℚ) + (decDigitsVal F : ℚ) / 10 ^ F.length := by
  have hp : ∀ c ∈ I, (fun c => !(c == '.')) c = true := fun c hc => by
    simpa using isDigit_ne_dot (hI c hc)
  have ht : I.takeWhile (fun c => !(c == '.')) = I :=
    List.takeWhile_eq_self_iff.mpr hp
  have hdot : ¬(fun c => !(c == '.')) '.' = true := by decide
  have h1 : (I ++ '.' :: F).takeWhile (fun c => !(c == '.')) = I := by
    rw [List.takeWhile_append]
    rw [if_pos (by rw [ht])]
    rw [show List.takeWhile (fun c => !(c == '.')) ('.' :: F) = [] from
      List.takeWhile_cons_of_neg hdot, List.append_nil]
  have h2 : (I ++ '.' :: F).dropWhile (fun c => !(c == '.')) = '.' :: F := by
    rw [List.dropWhile_append]
    have hdI : I.dropWhile (fun c => !(c == '.')) = [] :=
      List.dropWhile_eq_nil_iff.mpr hp
    rw [hdI]
    simp only [List.isEmpty_nil, if_pos]
    exact List.dropWhile_cons_of_neg hdot
  simp [parseDecRat, h1, h2]

/-- Stripping trailing zeros then a trailing point from
`digits ++ "." ++ digits`. -/
theorem strip_digits_dot (I F : List Char)
    (hI : ∀ c ∈ I, c.isDigit = true) (hF : ∀ c ∈ F, c.isDigit = true) :
    ((I ++ '.' :: F).rdropWhile (· == '0')).rdropWhile (· == '.') =
      if F.rdropWhile (· == '0') = [] then I
      else I ++ '.' :: F.rdropWhile (· == '0') := by
  have hIno : ∀ c ∈ I, ¬(c == '.') = true := fun c hc => isDigit_ne_dot (hI c hc)
  have hIdot : (I ++ ['.']).rdropWhile (· == '0') = I ++ ['.'] :=
    List.rdropWhile_concat_neg _ _ _ (by decide)
  have hsplit : I ++ '.' :: F = (I ++ ['.']) ++ F := by simp
  rw [hsplit, rdropWhile_append_char]
  by_cases h : F.rdropWhile (· == '0') = []
  · rw [if_pos h, if_pos h, hIdot, List.rdropWhile_concat_pos _ _ _ (by decide)]
    exact rdropWhile_eq_self_of_all _ I hIno
  · rw [if_neg h, if_neg h]
    have hlast : ∀ hne : ((I ++ ['.']) ++ F.rdropWhile (· == '0')) ≠ [],
        ¬(((I ++ ['.']) ++ F.rdropWhile (· == '0')).getLast hne == '.') = true := by
      intro hne
      have hFlast := List.rdropWhile_last_not (· == '0') F h
      have hmem : (F.rdropWhile (· == '0')).getLast h ∈ F :=
        (List.rdropWhile_prefix _ F).mem (List.getLast_mem h)
      have hdig := hF _ hmem
      rw [List.getLast_append_of_ne_nil h]
      exact isDigit_ne_dot hdig
    rw [List.rdropWhile_eq_self_iff.mpr hlast]
    simp

theorem decDigitsVal_all_zero (t : List Char) (a : ℕ) (ht : ∀ c ∈ t, c = '0') :
    t.foldl (fun acc c => 10 * acc + (c.toNat - 48)) a = a * 10 ^ t.length := by
  induction t generalizing a with
  | nil => simp
  | cons c u ih =>
    have hc : c = '0' := ht c (List.mem_cons_self _ _)
    have hu : ∀ x ∈ u, x = '0' := fun x hx => ht x (List.mem_cons_of_mem _ hx)
    subst hc
    simp only [List.foldl_cons, List.length_cons]
    rw [ih _ hu]
    have h0 : ('0'.toNat - 48) = 0 := rfl
    rw [h0]
    ring

/-- Dropping trailing `'0'` characters from a digit string divides its
value by the corresponding power of ten and shortens it accordingly. -/
theorem decDigitsVal_rdropWhile_zero (F : List Char) :
    (decDigitsVal F : ℚ) / 10 ^ F.length =
      (decDigitsVal (F.rdropWhile (· == '0')) : ℚ) /
        10 ^ (F.rdropWhile (· == '0')).length := by
  have hdec := rdropWhile_decomposition (· == '0') F
  set F' := F.rdropWhile (· == '0') with hF'
  set t := (F.reverse.takeWhile (· == '0')).reverse with hts
  have ht : ∀ c ∈ t, c = '0' := by
    intro c hc
    rw [hts, List.mem_reverse] at hc
    have hc2 := List.mem_takeWhile_imp (p := fun x => x == '0') (l := F.reverse) hc
    exact beq_iff_eq.mp hc2
  have hval : decDigitsVal F = decDigitsVal F' * 10 ^ t.length := by
    rw [hdec]
    simp only [decDigitsVal, List.foldl_append]
    exact decDigitsVal_all_zero t _ ht
  have hlen : F.length = F'.length + t.length := by
    conv_lhs => rw [hdec]
    simp
  rw [hval, hlen, pow_add]
  push_cast
  have h10 : ((10 : ℚ) ^ t.length) ≠ 0 := by positivity
  have h10b : ((10 : ℚ) ^ F'.length) ≠ 0 := by positivity
  field_simp
  ring

/-! ## Parse-back correctness of the formatter -/

theorem string_eq_mk_of_toList {s : String} {l : List Char} (h : s.toList = l) :
    s = String.mk l := by
  cases s
  exact congrArg String.mk h

theorem nat_div_add_mod_cast (m k : ℕ) (hk : (0:ℚ) < (k:ℚ)) :
    ((m / k : ℕ) : ℚ) + ((m % k : ℕ) : ℚ) / (k : ℚ) = (m : ℚ) / (k : ℚ) := by
  have h := Nat.div_add_mod m k
  have hcast : ((k:ℚ)) * ((m / k : ℕ) : ℚ) + ((m % k : ℕ) : ℚ) = (m : ℚ) := by
    exact_mod_cast congrArg (fun x : ℕ => (x : ℚ)) h
  field_simp
  linarith

theorem natLitStr_cast_div (m dn : ℕ) (h : m % 10 ^ dn = 0) :
    ((m / 10 ^ dn : ℕ) : ℚ) = (m : ℚ) / 10 ^ dn := by
  have hdvd : 10 ^ dn ∣ m := Nat.dvd_of_mod_eq_zero h
  rw [Nat.cast_div hdvd (by positivity)]
  push_cast
  rfl

theorem parse_formatCore_pos (v : ℚ) (d : ℤ) (hd : 0 < d) (n : ℤ) (hn : 0 ≤ n)
    (hv : v * 10 ^ d = (n : ℚ)) :
    parseDecRat (formatCore v d) = v := by
  set dn := d.toNat with hdn
  have hdnd : (dn : ℤ) = d := Int.toNat_of_nonneg (le_of_lt hd)
  have hdn0 : dn ≠ 0 := by omega
  have hpow : ((10 : ℚ) ^ d) = (10 : ℚ) ^ (dn : ℕ) := by
    rw [← hdnd, zpow_natCast]
  have hv2 : v * 10 ^ (dn : ℕ) = (n : ℚ) := by rw [← hpow, hv]
  set m := n.toNat with hm
  have hmn : ((m : ℕ) : ℚ) = (n : ℚ) := by
    exact_mod_cast congrArg (fun z : ℤ => (z : ℚ)) (Int.toNat_of_nonneg hn)
  have hvtotal : v = (m : ℚ) / 10 ^ dn := by
    rw [eq_div_iff (by positivity : ((10:ℚ) ^ dn) ≠ 0), hv2, hmn]
  set I := (natLitStr (m / 10 ^ dn)).toList with hI
  set F := padFrac dn (m % 10 ^ dn) with hF
  have hIdig : ∀ c ∈ I, c.isDigit = true := natLitStr_all_digit _
  have hFdig : ∀ c ∈ F, c.isDigit = true := padFrac_all_digit _ _
  have hFlen : F.length = dn := padFrac_length dn _ (Nat.mod_lt _ (by positivity))
  have hFval : decDigitsVal F = m % 10 ^ dn := decDigitsVal_padFrac _ _
  have hffix : (formatFixed v dn).toList = I ++ '.' :: F := by
    rw [formatFixed_toList v dn n hn hv2, if_neg hdn0]
  set s := pyRstrip (pyRstrip (formatFixed v dn) '0') '.' with hs
  have hstrip : s.toList =
      if F.rdropWhile (· == '0') = [] then I
      else I ++ '.' :: F.rdropWhile (· == '0') := by
    rw [hs, pyRstrip_toList, pyRstrip_toList, hffix]
    exact strip_digits_dot I F hIdig hFdig
  have hval := decDigitsVal_rdropWhile_zero F
  have hcore : formatCore v d = if s = "" then "0" else s := by
    simp only [formatCore, if_pos hd, hs, hdn]
  by_cases hFp : F.rdropWhile (· == '0') = []
  · rw [if_pos hFp] at hstrip
    have hsne : s ≠ "" := by
      intro h
      rw [h] at hstrip
      exact natLitStr_ne_nil (m / 10 ^ dn) hstrip.symm
    rw [hcore, if_neg hsne, string_eq_mk_of_toList hstrip,
      parseDecRat_digits I hIdig, hI, decDigitsVal_natLitStr]
    have hmod : m % 10 ^ dn = 0 := by
      rw [hFp] at hval
      rw [show decDigitsVal ([] : List Char) = 0 from rfl] at hval
      simp only [List.length_nil, pow_zero, Nat.cast_zero, zero_div] at hval
      have h10 : ((10:ℚ) ^ F.length) ≠ 0 := by positivity
      rw [div_eq_zero_iff] at hval
      rcases hval with h | h
      · have hz : decDigitsVal F = 0 := by exact_mod_cast h
        rw [hFval] at hz
        exact hz
      · exact absurd h h10
    rw [natLitStr_cast_div m dn hmod, hvtotal]
  · rw [if_neg hFp] at hstrip
    have hsne : s ≠ "" := by
      intro h
      rw [h] at hstrip
      have : I ++ '.' :: F.rdropWhile (· == '0') = [] := hstrip.symm
      simp at this
    rw [hcore, if_neg hsne, string_eq_mk_of_toList hstrip,
      parseDecRat_digits_dot I _ hIdig, ← hval, hFval, hFlen, hI,
      decDigitsVal_natLitStr, hvtotal]
    exact_mod_cast nat_div_add_mod_cast m (10 ^ dn) (by positivity)


theorem parse_formatCore_nonpos (v : ℚ) (d : ℤ) (hd : ¬0 < d) (k : ℤ)
    (hk : 0 ≤ k) (hv : v = (k : ℚ)) :
    parseDecRat (formatCore v d) = v := by
  have hffix : (formatFixed v 0).toList = (natLitStr k.toNat).toList := by
    rw [formatFixed_toList v 0 k hk (by simpa using hv), if_pos rfl]
  have hcore : formatCore v d = formatFixed v 0 := by
    simp only [formatCore, if_neg hd]
  rw [hcore, string_eq_mk_of_toList hffix, parseDecRat_digits _ (natLitStr_all_digit _),
    decDigitsVal_natLitStr, hv]
  exact_mod_cast congrArg (fun z : ℤ => (z : ℚ)) (Int.toNat_of_nonneg hk)

/-- The rounded value and its integer numerator, shared by the
formatter theorems. -/
theorem roundTo_mul_pow (q : ℚ) (d : ℤ) :
    roundTo q d * 10 ^ d = ((roundHalfEven (q * 10 ^ d) : ℤ) : ℚ) := by
  simp only [roundTo]
  field_simp

theorem roundHalfEven_nonneg_of_pos (q : ℚ) (hq : 0 < q) (d : ℤ) :
    0 ≤ roundHalfEven (q * 10 ^ d) := by
  have : (0:ℚ) ≤ q * 10 ^ d := by positivity
  exact roundHalfEven_nonneg _ this

/-- Parse-back correctness: for a positive value, the formatted string
reads back as exactly the half-to-even 3-significant-figure rounding of
the value. -/
theorem parse_format_sigfigs (q : ℚ) (hq : 0 < q) :
    parseDecRat (format_sigfigs_no_sci (.num q) 3) = roundToSigFigs 3 q := by
  have hq0 : q ≠ 0 := ne_of_gt hq
  simp only [format_sigfigs_no_sci, if_neg hq0, roundToSigFigs]
  set d : ℤ := (3 : ℤ) - 1 - Int.log 10 |q| with hd
  set n := roundHalfEven (q * 10 ^ d) with hn
  have hn0 : 0 ≤ n := roundHalfEven_nonneg_of_pos q hq d
  have hmul : roundTo q d * 10 ^ d = (n : ℚ) := roundTo_mul_pow q d
  by_cases hdp : 0 < d
  · exact parse_formatCore_pos _ d hdp n hn0 hmul
  · have hk : roundTo q d = ((n * 10 ^ (-d).toNat : ℤ) : ℚ) := by
      have hdneg : ((-d).toNat : ℤ) = -d := Int.toNat_of_nonneg (by omega)
      have : roundTo q d = (n : ℚ) / 10 ^ d := by
        rw [eq_div_iff (by positivity : ((10:ℚ) ^ d) ≠ 0), hmul]
      rw [this]
      push_cast
      rw [← zpow_natCast (10 : ℚ) (-d).toNat, hdneg, zpow_neg]
      field_simp
    exact parse_formatCore_nonpos _ d hdp _ (by positivity) hk

/-! ## Minimal-form correctness of the formatter -/

theorem count_dot_zero_of_digits (I : List Char) (h : ∀ c ∈ I, c.isDigit = true) :
    I.count '.' = 0 := by
  rw [List.count_eq_zero]
  intro hmem
  exact absurd (h _ hmem) (by decide)

theorem not_mem_dot_of_digits (I : List Char) (h : ∀ c ∈ I, c.isDigit = true) :
    '.' ∉ I := by
  intro hmem
  exact absurd (h _ hmem) (by decide)

theorem toList_mk (l : List Char) : (String.mk l).toList = l := rfl

theorem plainDecimalMinimal_digits (I : List Char) (hne : I ≠ [])
    (hdig : ∀ c ∈ I, c.isDigit = true) :
    plainDecimalMinimal (String.mk I) = true := by
  have hlast : I.getLast? = some (I.getLast hne) := List.getLast?_eq_getLast I hne
  have hlastd : (I.getLast hne).isDigit = true := hdig _ (List.getLast_mem hne)
  simp only [plainDecimalMinimal, toList_mk, Bool.and_eq_true, Bool.or_eq_true,
    Bool.not_eq_true']
  refine ⟨⟨⟨⟨?_, ?_⟩, ?_⟩, ?_⟩, ?_⟩
  · simpa [List.isEmpty_iff] using hne
  · rw [List.all_eq_true]
    intro c hc
    simp [hdig c hc]
  · simp [count_dot_zero_of_digits I hdig]
  · rw [hlast, beq_eq_false_iff_ne]
    intro hcontra
    rw [Option.some.inj hcontra] at hlastd
    exact absurd hlastd (by decide)
  · left
    rw [Bool.eq_false_iff]
    intro hcontra
    have hmem : ('.' : Char) ∈ I := by simpa using hcontra
    exact not_mem_dot_of_digits I hdig hmem

theorem plainDecimalMinimal_digits_dot (I F : List Char) (_hIne : I ≠ [])
    (hIdig : ∀ c ∈ I, c.isDigit = true) (hFne : F ≠ [])
    (hFdig : ∀ c ∈ F, c.isDigit = true)
    (hFlast : F.getLast hFne ≠ '0') :
    plainDecimalMinimal (String.mk (I ++ '.' :: F)) = true := by
  have hlastF : F.getLast? = some (F.getLast hFne) := List.getLast?_eq_getLast F hFne
  have hlast : (I ++ '.' :: F).getLast? = some (F.getLast hFne) := by
    rw [List.getLast?_append]
    rw [show ('.' :: F).getLast? = F.getLast? by
      cases F with
      | nil => exact absurd rfl hFne
      | cons a t => simp [List.getLast?_cons_cons]]
    rw [hlastF]
    rfl
  have hlastd : (F.getLast hFne).isDigit = true := hFdig _ (List.getLast_mem hFne)
  simp only [plainDecimalMinimal, toList_mk, Bool.and_eq_true, Bool.or_eq_true,
    Bool.not_eq_true']
  refine ⟨⟨⟨⟨?_, ?_⟩, ?_⟩, ?_⟩, ?_⟩
  · simp [List.isEmpty_iff]
  · rw [List.all_eq_true]
    intro c hc
    simp only [List.mem_append, List.mem_cons] at hc
    rcases hc with h | h | h
    · simp [hIdig c h]
    · rw [h]
      decide
    · simp [hFdig c h]
  · simp only [decide_eq_true_eq]
    rw [List.count_append, count_dot_zero_of_digits I hIdig]
    rw [show List.count '.' ('.' :: F) = List.count '.' F + 1 from List.count_cons_self '.' F ▸ rfl]
    rw [count_dot_zero_of_digits F hFdig]
  · rw [hlast, beq_eq_false_iff_ne]
    intro hcontra
    rw [Option.some.inj hcontra] at hlastd
    exact absurd hlastd (by decide)
  · right
    rw [hlast, beq_eq_false_iff_ne]
    intro hcontra
    exact hFlast (Option.some.inj hcontra)

theorem plain_formatCore_pos (v : ℚ) (d : ℤ) (hd : 0 < d) (n : ℤ) (hn : 0 ≤ n)
    (hv : v * 10 ^ d = (n : ℚ)) :
    plainDecimalMinimal (formatCore v d) = true := by
  set dn := d.toNat with hdn
  have hdnd : (dn : ℤ) = d := Int.toNat_of_nonneg (le_of_lt hd)
  have hdn0 : dn ≠ 0 := by omega
  have hpow : ((10 : ℚ) ^ d) = (10 : ℚ) ^ (dn : ℕ) := by
    rw [← hdnd, zpow_natCast]
  have hv2 : v * 10 ^ (dn : ℕ) = (n : ℚ) := by rw [← hpow, hv]
  set m := n.toNat with hm
  set I := (natLitStr (m / 10 ^ dn)).toList with hI
  set F := padFrac dn (m % 10 ^ dn) with hF
  have hIdig : ∀ c ∈ I, c.isDigit = true := natLitStr_all_digit _
  have hFdig : ∀ c ∈ F, c.isDigit = true := padFrac_all_digit _ _
  have hffix : (formatFixed v dn).toList = I ++ '.' :: F := by
    rw [formatFixed_toList v dn n hn hv2, if_neg hdn0]
  set s := pyRstrip (pyRstrip (formatFixed v dn) '0') '.' with hs
  have hstrip : s.toList =
      if F.rdropWhile (· == '0') = [] then I
      else I ++ '.' :: F.rdropWhile (· == '0') := by
    rw [hs, pyRstrip_toList, pyRstrip_toList, hffix]
    exact strip_digits_dot I F hIdig hFdig
  have hcore : formatCore v d = if s = "" then "0" else s := by
    simp only [formatCore, if_pos hd, hs, hdn]
  by_cases hFp : F.rdropWhile (· == '0') = []
  · rw [if_pos hFp] at hstrip
    have hsne : s ≠ "" := by
      intro h
      rw [h] at hstrip
      exact natLitStr_ne_nil (m / 10 ^ dn) hstrip.symm
    rw [hcore, if_neg hsne, string_eq_mk_of_toList hstrip]
    exact plainDecimalMinimal_digits I (natLitStr_ne_nil _) hIdig
  · rw [if_neg hFp] at hstrip
    have hsne : s ≠ "" := by
      intro h
      rw [h] at hstrip
      have : I ++ '.' :: F.rdropWhile (· == '0') = [] := hstrip.symm
      simp at this
    rw [hcore, if_neg hsne, string_eq_mk_of_toList hstrip]
    refine plainDecimalMinimal_digits_dot I _ (natLitStr_ne_nil _) hIdig hFp ?_ ?_
    · intro c hc
      exact hFdig c ((List.rdropWhile_prefix _ F).mem hc)
    · have := List.rdropWhile_last_not (· == '0') F hFp
      intro hcontra
      exact this (by simp [hcontra])

theorem plain_formatCore_nonpos (v : ℚ) (d : ℤ) (hd : ¬0 < d) (k : ℤ)
    (hk : 0 ≤ k) (hv : v = (k : ℚ)) :
    plainDecimalMinimal (formatCore v d) = true := by
  have hffix : (formatFixed v 0).toList = (natLitStr k.toNat).toList := by
    rw [formatFixed_toList v 0 k hk (by simpa using hv), if_pos rfl]
  have hcore : formatCore v d = formatFixed v 0 := by
    simp only [formatCore, if_neg hd]
  rw [hcore, string_eq_mk_of_toList hffix]
  exact plainDecimalMinimal_digits _ (natLitStr_ne_nil _) (natLitStr_all_digit _)

/-- Minimal-form correctness: for every positive value, the formatted
string is a minimal plain-decimal rendering — digits with at most one
point, never scientific notation, no trailing fractional zero, no
trailing point. -/
theorem plain_format_sigfigs (q : ℚ) (hq : 0 < q) :
    plainDecimalMinimal (format_sigfigs_no_sci (.num q) 3) = true := by
  have hq0 : q ≠ 0 := ne_of_gt hq
  simp only [format_sigfigs_no_sci, if_neg hq0]
  set d : ℤ := (3 : ℤ) - 1 - Int.log 10 |q| with hd
  set n := roundHalfEven (q * 10 ^ d) with hn
  have hn0 : 0 ≤ n := roundHalfEven_nonneg_of_pos q hq d
  have hmul : roundTo q d * 10 ^ d = (n : ℚ) := roundTo_mul_pow q d
  by_cases hdp : 0 < d
  · exact plain_formatCore_pos _ d hdp n hn0 hmul
  · have hk : roundTo q d = ((n * 10 ^ (-d).toNat : ℤ) : ℚ) := by
      have hdneg : ((-d).toNat : ℤ) = -d := Int.toNat_of_nonneg (by omega)
      have : roundTo q d = (n : ℚ) / 10 ^ d := by
        rw [eq_div_iff (by positivity : ((10:ℚ) ^ d) ≠ 0), hmul]
      rw [this]
      push_cast
      rw [← zpow_natCast (10 : ℚ) (-d).toNat, hdneg, zpow_neg]
      field_simp
    exact plain_formatCore_nonpos _ d hdp _ (by positivity) hk

/-! ## Idempotence of the formatter -/

theorem natDigitsMsb_tenfold (k : ℕ) (hk : 0 < k) :
    natDigitsMsb (10 * k) = natDigitsMsb k ++ ['0'] := by
  have h10 : Nat.digits 10 (10 * k) = 0 :: Nat.digits 10 k := by
    rw [Nat.digits_def' (by norm_num : (1:ℕ) < 10) (by positivity)]
    congr 1
    · omega
    · congr 1
      omega
  simp [natDigitsMsb, h10, show Nat.digitChar 0 = '0' from rfl]

theorem padFrac_succ_tenfold (k km : ℕ) (h : km < 10 ^ k) :
    padFrac (k + 1) (10 * km) = padFrac k km ++ ['0'] := by
  by_cases hz : km = 0
  · subst hz
    simp only [Nat.mul_zero, padFrac, natDigitsMsb, Nat.digits_zero, List.map_nil,
      List.reverse_nil, List.length_nil, Nat.sub_zero, List.append_nil]
    rw [List.replicate_succ']
  · have hlen := natDigitsMsb_length_le k km h
    rw [padFrac, padFrac, natDigitsMsb_tenfold km (Nat.pos_of_ne_zero hz)]
    rw [List.length_append, List.length_singleton]
    rw [show k + 1 - ((natDigitsMsb km).length + 1) = k - (natDigitsMsb km).length by omega]
    rw [← List.append_assoc]

theorem pyRstrip_append_zero (x : String) :
    pyRstrip (String.mk (x.toList ++ ['0'])) '0' = pyRstrip x '0' := by
  apply string_eq_mk_of_toList
  rw [pyRstrip_toList, toList_mk]
  rw [List.rdropWhile_concat_pos _ _ _ (by decide)]

/-- Moving from `d` to `d + 1` fractional digits only appends a `'0'`
when the value is exactly representable with `d` digits. -/
theorem formatFixed_succ (v : ℚ) (k : ℕ) (m : ℤ) (hm : 0 ≤ m)
    (hk : 1 ≤ k) (hv : v * 10 ^ (k : ℕ) = (m : ℚ)) :
    (formatFixed v (k + 1)).toList = (formatFixed v k).toList ++ ['0'] := by
  have hk0 : k ≠ 0 := by omega
  have hv1 : v * 10 ^ (k + 1 : ℕ) = ((10 * m : ℤ) : ℚ) := by
    rw [pow_succ, ← mul_assoc, hv]
    push_cast
    ring
  rw [formatFixed_toList v (k + 1) (10 * m) (by omega) hv1, if_neg (by omega)]
  rw [formatFixed_toList v k m hm hv, if_neg hk0]
  have htn : (10 * m).toNat = 10 * m.toNat := by omega
  rw [htn]
  have hdiv : 10 * m.toNat / 10 ^ (k + 1) = m.toNat / 10 ^ k := by
    rw [pow_succ, Nat.mul_comm (10 ^ k) 10]
    exact Nat.mul_div_mul_left _ _ (by norm_num)
  have hmod : 10 * m.toNat % 10 ^ (k + 1) = 10 * (m.toNat % 10 ^ k) := by
    rw [pow_succ, Nat.mul_comm (10 ^ k) 10]
    exact Nat.mul_mod_mul_left 10 _ _
  rw [hdiv, hmod, padFrac_succ_tenfold k _ (Nat.mod_lt _ (by positivity))]
  simp

/-- When the value is exactly representable with `d - 1` decimals,
formatting at `d` and at `d - 1` decimals produce the same final
string. -/
theorem formatCore_step (v : ℚ) (d : ℤ) (m : ℤ) (hm : 0 ≤ m)
    (hv : v * 10 ^ (d - 1) = (m : ℚ)) :
    formatCore v d = formatCore v (d - 1) := by
  by_cases hd1 : 0 < d
  · by_cases hd2 : 0 < d - 1
    · -- both in the strip branch, d ≥ 2
      have hk : (d - 1).toNat + 1 = d.toNat := by omega
      have hk1 : 1 ≤ (d - 1).toNat := by omega
      have hvk : v * 10 ^ ((d - 1).toNat : ℕ) = (m : ℚ) := by
        rw [← hv, ← zpow_natCast (10:ℚ) (d-1).toNat, Int.toNat_of_nonneg (by omega)]
      have hstep : (formatFixed v d.toNat).toList =
          (formatFixed v (d - 1).toNat).toList ++ ['0'] := by
        rw [← hk]
        exact formatFixed_succ v (d - 1).toNat m hm hk1 hvk
      have hsame : pyRstrip (formatFixed v d.toNat) '0' =
          pyRstrip (formatFixed v (d - 1).toNat) '0' := by
        have h1 : formatFixed v d.toNat =
            String.mk ((formatFixed v (d - 1).toNat).toList ++ ['0']) :=
          string_eq_mk_of_toList hstep
        rw [h1, pyRstrip_append_zero]
      simp only [formatCore, if_pos hd1, if_pos hd2, hsame]
    · -- d = 1: the strip branch collapses to the integer rendering
      have hd1e : d = 1 := by omega
      subst hd1e
      have hv0 : v = (m : ℚ) := by simpa using hv
      have hv1 : v * 10 ^ (1 : ℕ) = ((10 * m : ℤ) : ℚ) := by
        rw [hv0]
        push_cast
        ring
      have hffix : (formatFixed v 1).toList =
          (natLitStr ((10 * m).toNat / 10 ^ 1)).toList ++
            '.' :: padFrac 1 ((10 * m).toNat % 10 ^ 1) := by
        rw [formatFixed_toList v 1 (10 * m) (by omega) hv1, if_neg (by omega)]
      have htn : (10 * m).toNat = 10 * m.toNat := by omega
      have hdiv : 10 * m.toNat / 10 ^ 1 = m.toNat := by omega
      have hmod : 10 * m.toNat % 10 ^ 1 = 0 := by omega
      rw [htn, hdiv, hmod] at hffix
      have hpad : padFrac 1 0 = ['0'] := by
        simp [padFrac, natDigitsMsb]
      rw [hpad] at hffix
      set s := pyRstrip (pyRstrip (formatFixed v 1) '0') '.' with hs
      have hstrip : s.toList = (natLitStr m.toNat).toList := by
        rw [hs, pyRstrip_toList, pyRstrip_toList, hffix]
        have := strip_digits_dot (natLitStr m.toNat).toList ['0']
          (natLitStr_all_digit _) (by intro c hc; simp at hc; subst hc; rfl)
        rw [show List.rdropWhile (· == '0') ['0'] = [] from rfl] at this
        rw [if_pos rfl] at this
        exact this
      have hsne : s ≠ "" := by
        intro h
        rw [h] at hstrip
        exact natLitStr_ne_nil m.toNat hstrip.symm
      have hfc1 : formatCore v 1 = s := by
        have ht1 : (1:ℤ).toNat = 1 := rfl
        simp only [formatCore, if_pos (by norm_num : (0:ℤ) < 1), ht1, ← hs]
        rw [if_neg hsne]
      have hfc0 : formatCore v (1 - 1) = formatFixed v 0 := by
        norm_num [formatCore]
      have hfix0 : (formatFixed v 0).toList = (natLitStr m.toNat).toList := by
        rw [formatFixed_toList v 0 m hm (by simpa using hv0), if_pos rfl]
      rw [hfc1, hfc0, string_eq_mk_of_toList hstrip, string_eq_mk_of_toList hfix0]
  · -- d ≤ 0: both in the integer branch
    have hd2 : ¬0 < d - 1 := by omega
    simp only [formatCore, if_neg hd1, if_neg hd2]

theorem zpow_ten_two : (10:ℚ) ^ (2:ℤ) = 100 := by norm_num

theorem zpow_ten_three : (10:ℚ) ^ (3:ℤ) = 1000 := by norm_num

/-- Formatting is idempotent on values: re-formatting the rounded value
produces the same string. -/
theorem format_sigfigs_idem (q : ℚ) (hq : 0 < q) :
    format_sigfigs_no_sci (.num (roundToSigFigs 3 q)) 3
      = format_sigfigs_no_sci (.num q) 3 := by
  have hq0 : q ≠ 0 := ne_of_gt hq
  have h10ne : (10:ℚ) ≠ 0 := by norm_num
  have habs : |q| = q := abs_of_pos hq
  set p := Int.log 10 q with hp
  set d : ℤ := (3:ℤ) - 1 - p with hd
  have hlow : (10:ℚ) ^ p ≤ q := by
    simpa [hp] using Int.zpow_log_le_self (b := 10) (by norm_num) hq
  have hhigh : q < (10:ℚ) ^ (p + 1) := by
    simpa [hp] using Int.lt_zpow_succ_log_self (b := 10) (by norm_num) q
  set x := q * 10 ^ d with hx
  have hpd : p + d = 2 := by omega
  have hx100 : (100:ℚ) ≤ x := by
    have h1 : (10:ℚ) ^ p * 10 ^ d ≤ q * 10 ^ d := by
      have hpos : (0:ℚ) < 10 ^ d := zpow_pos (by norm_num) d
      exact mul_le_mul_of_nonneg_right hlow (le_of_lt hpos)
    rw [← zpow_add₀ h10ne, hpd, zpow_ten_two] at h1
    exact h1
  have hx1000 : x < 1000 := by
    have h1 : q * 10 ^ d < (10:ℚ) ^ (p + 1) * 10 ^ d := by
      have hpos : (0:ℚ) < 10 ^ d := zpow_pos (by norm_num) d
      exact mul_lt_mul_of_pos_right hhigh hpos
    rw [← zpow_add₀ h10ne, show p + 1 + d = 3 by omega, zpow_ten_three] at h1
    exact h1
  set n := roundHalfEven x with hn
  have hn100 : 100 ≤ n := by
    have hf : (100:ℤ) ≤ ⌊x⌋ := Int.le_floor.mpr (by exact_mod_cast hx100)
    have := roundHalfEven_ge_floor x
    omega
  have hn1000 : n ≤ 1000 := by
    have hf : ⌊x⌋ < 1000 := Int.floor_lt.mpr (by exact_mod_cast hx1000)
    have := roundHalfEven_le_floor_add_one x
    omega
  set r := roundTo q d with hr
  have hrval : r = (n:ℚ) / 10 ^ d := by rw [hr, roundTo, ← hx, ← hn]
  have hnpos : (0:ℚ) < (n:ℚ) := by exact_mod_cast (by omega : (0:ℤ) < n)
  have hrpos : 0 < r := by
    rw [hrval]
    exact div_pos hnpos (zpow_pos (by norm_num) d)
  have hr0 : r ≠ 0 := ne_of_gt hrpos
  have hrmul : r * 10 ^ d = (n:ℚ) := by
    rw [hrval]
    field_simp
  have h3 : ((3:ℕ):ℤ) - 1 - p = d := by rw [hd]; push_cast; ring
  have h3b : ((3:ℕ):ℤ) - 1 - (p + 1) = d - 1 := by rw [hd]; push_cast; ring
  have hrts : roundToSigFigs 3 q = r := by
    rw [roundToSigFigs, habs, ← hp, h3, ← hr]
  have hfq : format_sigfigs_no_sci (.num q) 3 = formatCore r d := by
    simp only [format_sigfigs_no_sci, if_neg hq0, habs, ← hp, h3, ← hr]
  rw [hrts]
  have hdpow_ne : ((10:ℚ) ^ d) ≠ 0 := (zpow_pos (by norm_num) d).ne'
  have hp100 : (10:ℚ) ^ p = 100 / 10 ^ d := by
    rw [eq_div_iff hdpow_ne, ← zpow_add₀ h10ne, hpd, zpow_ten_two]
  have hp1000 : (10:ℚ) ^ (p + 1) = 1000 / 10 ^ d := by
    rw [eq_div_iff hdpow_ne, ← zpow_add₀ h10ne, show p + 1 + d = 3 by omega,
      zpow_ten_three]
  by_cases hcase : n < 1000
  · have hlogr : Int.log 10 r = p := by
      refine logTen_eq r p hrpos ?_ ?_
      · rw [hrval, hp100]
        gcongr
        exact_mod_cast hn100
      · rw [hrval, hp1000]
        have hnq : ((n:ℚ)) < 1000 := by exact_mod_cast hcase
        gcongr
    have hrr : roundTo r d = r := by
      rw [roundTo, hrmul, roundHalfEven_intCast, ← hrval]
    have hfr : format_sigfigs_no_sci (.num r) 3 = formatCore r d := by
      simp only [format_sigfigs_no_sci, if_neg hr0, abs_of_pos hrpos, hlogr, h3, hrr]
    rw [hfr, hfq]
  · have hn_eq : n = 1000 := by omega
    have hr10 : r = (10:ℚ) ^ (p + 1) := by
      rw [hrval, hn_eq, hp1000]
      norm_num
    have hlogr : Int.log 10 r = p + 1 := by
      refine logTen_eq r (p+1) hrpos (le_of_eq hr10.symm) ?_
      rw [hr10]
      exact zpow_lt_zpow_right₀ (by norm_num) (by omega)
    have hrd1 : r * 10 ^ (d - 1) = ((100:ℤ) : ℚ) := by
      rw [hr10, ← zpow_add₀ h10ne, show p + 1 + (d - 1) = 2 by omega, zpow_ten_two]
      norm_num
    have hrr : roundTo r (d - 1) = r := by
      rw [roundTo, hrd1, roundHalfEven_intCast]
      rw [eq_comm, eq_div_iff (by positivity : ((10:ℚ) ^ (d-1)) ≠ 0), hrd1]
    have hfr : format_sigfigs_no_sci (.num r) 3 = formatCore r (d - 1) := by
      simp only [format_sigfigs_no_sci, if_neg hr0, abs_of_pos hrpos, hlogr]
      rw [h3b, hrr]
    rw [hfq, hfr, formatCore_step r d 100 (by norm_num) hrd1]

/-! ## Concrete evaluations of the formatter -/

theorem mk_toList (s : String) : String.mk s.toList = s := by
  cases s
  rfl

theorem mk_half_eq : (Rat.mk' 1 2 : ℚ) = 1 / 2 := by
  norm_num [Rat.mk'_eq_divInt, Rat.divInt_eq_div]

theorem LOQ_eq : LOQ = 1 / 10 := by
  norm_num [LOQ, Rat.mk'_eq_divInt, Rat.divInt_eq_div]

theorem roundHalfEven_eq_of_lt (q : ℚ) (f : ℤ) (hf : ⌊q⌋ = f)
    (h : q - f < 1 / 2) : roundHalfEven q = f := by
  simp only [roundHalfEven, hf, mk_half_eq]
  rw [if_pos h]

theorem roundHalfEven_eq_of_gt (q : ℚ) (f : ℤ) (hf : ⌊q⌋ = f)
    (h : 1 / 2 < q - f) : roundHalfEven q = f + 1 := by
  simp only [roundHalfEven, hf, mk_half_eq]
  rw [if_neg (by linarith), if_pos h]

/-- Closed form of `formatCore` in the positive-decimals branch, for
concrete evaluation. -/
theorem formatCore_pos_eval (v : ℚ) (d : ℤ) (hd : 0 < d) (n : ℤ) (hn : 0 ≤ n)
    (hv : v * 10 ^ d = (n : ℚ)) :
    formatCore v d = String.mk (
      if (padFrac d.toNat (n.toNat % 10 ^ d.toNat)).rdropWhile (· == '0') = []
      then (natLitStr (n.toNat / 10 ^ d.toNat)).toList
      else (natLitStr (n.toNat / 10 ^ d.toNat)).toList ++
        '.' :: (padFrac d.toNat (n.toNat % 10 ^ d.toNat)).rdropWhile (· == '0')) := by
  set dn := d.toNat with hdn
  have hdnd : (dn : ℤ) = d := Int.toNat_of_nonneg (le_of_lt hd)
  have hdn0 : dn ≠ 0 := by omega
  have hpow : ((10 : ℚ) ^ d) = (10 : ℚ) ^ (dn : ℕ) := by
    rw [← hdnd, zpow_natCast]
  have hv2 : v * 10 ^ (dn : ℕ) = (n : ℚ) := by rw [← hpow, hv]
  set m := n.toNat with hm
  set I := (natLitStr (m / 10 ^ dn)).toList with hI
  set F := padFrac dn (m % 10 ^ dn) with hF
  have hIdig : ∀ c ∈ I, c.isDigit = true := natLitStr_all_digit _
  have hFdig : ∀ c ∈ F, c.isDigit = true := padFrac_all_digit _ _
  have hffix : (formatFixed v dn).toList = I ++ '.' :: F := by
    rw [formatFixed_toList v dn n hn hv2, if_neg hdn0]
  set s := pyRstrip (pyRstrip (formatFixed v dn) '0') '.' with hs
  have hstrip : s.toList =
      if F.rdropWhile (· == '0') = [] then I
      else I ++ '.' :: F.rdropWhile (· == '0') := by
    rw [hs, pyRstrip_toList, pyRstrip_toList, hffix]
    exact strip_digits_dot I F hIdig hFdig
  have hcore : formatCore v d = if s = "" then "0" else s := by
    simp only [formatCore, if_pos hd, hs, hdn]
  have hsne : s ≠ "" := by
    intro h
    rw [h] at hstrip
    by_cases hFp : F.rdropWhile (· == '0') = []
    · rw [if_pos hFp] at hstrip
      exact natLitStr_ne_nil (m / 10 ^ dn) hstrip.symm
    · rw [if_neg hFp] at hstrip
      have : I ++ '.' :: F.rdropWhile (· == '0') = [] := hstrip.symm
      simp at this
  rw [hcore, if_neg hsne, string_eq_mk_of_toList hstrip]

/-- Closed form of `formatCore` in the nonpositive-decimals branch. -/
theorem formatCore_nonpos_eval (v : ℚ) (d : ℤ) (hd : ¬0 < d) (k : ℤ)
    (hk : 0 ≤ k) (hv : v = (k : ℚ)) :
    formatCore v d = natLitStr k.toNat := by
  have hffix : (formatFixed v 0).toList = (natLitStr k.toNat).toList := by
    rw [formatFixed_toList v 0 k hk (by simpa using hv), if_pos rfl]
  have hcore : formatCore v d = formatFixed v 0 := by
    simp only [formatCore, if_neg hd]
  rw [hcore, string_eq_mk_of_toList hffix, mk_toList]

theorem format_zero : format_sigfigs_no_sci (.num 0) 3 = "0" := by
  simp [format_sigfigs_no_sci]

theorem format_nan : format_sigfigs_no_sci .nan 3 = "0" := rfl

theorem format_val_123456_tenth : format_sigfigs_no_sci (.num (123456/10)) 3 = "12300" := by
  have hq : (0:ℚ) < 123456/10 := by norm_num
  have hlog : Int.log 10 |(123456/10 : ℚ)| = 4 := by
    rw [abs_of_pos hq]
    refine logTen_eq _ 4 hq ?_ ?_
    · rw [show ((10:ℚ)^(4:ℤ)) = 10000 by norm_num]
      norm_num
    · rw [show ((4:ℤ) + 1) = 5 from rfl, show ((10:ℚ)^(5:ℤ)) = 100000 by norm_num]
      norm_num
  simp only [format_sigfigs_no_sci, if_neg (by norm_num : ¬(123456/10 : ℚ) = 0), hlog]
  rw [show ((3:ℕ):ℤ) - 1 - 4 = -2 by norm_num]
  have hround : roundTo (123456/10 : ℚ) (-2) = ((12300:ℤ):ℚ) := by
    rw [roundTo]
    have hx : (123456/10 : ℚ) * 10^(-2:ℤ) = 123456/1000 := by
      rw [show ((10:ℚ)^(-2:ℤ)) = 1/100 by
        rw [zpow_neg, show ((10:ℚ)^(2:ℤ)) = 100 by norm_num]
        norm_num]
      ring
    rw [hx]
    have hfl : ⌊(123456/1000 : ℚ)⌋ = 123 := by
      norm_num [Int.floor_eq_iff]
    rw [roundHalfEven_eq_of_lt _ 123 hfl (by norm_num)]
    rw [show ((10:ℚ)^(-2:ℤ)) = 1/100 by
      rw [zpow_neg, show ((10:ℚ)^(2:ℤ)) = 100 by norm_num]
      norm_num]
    norm_num
  rw [hround, formatCore_nonpos_eval _ (-2) (by norm_num) 12300 (by norm_num) rfl]
  rw [show ((12300:ℤ)).toNat = 12300 from rfl]
  rw [natLitStr, if_neg (by norm_num), natDigitsMsb]
  rw [show Nat.digits 10 12300 = [0, 0, 3, 2, 1] by norm_num [Nat.digits_def']]
  rfl

theorem format_val_9999_hundredthousandth :
    format_sigfigs_no_sci (.num (9999/100000)) 3 = "0.1" := by
  have hq : (0:ℚ) < 9999/100000 := by norm_num
  have hlog : Int.log 10 |(9999/100000 : ℚ)| = -2 := by
    rw [abs_of_pos hq]
    refine logTen_eq _ (-2) hq ?_ ?_
    · rw [show ((10:ℚ)^(-2:ℤ)) = 1/100 by
        rw [zpow_neg, show ((10:ℚ)^(2:ℤ)) = 100 by norm_num]
        norm_num]
      norm_num
    · rw [show ((-2:ℤ) + 1) = -1 from rfl, show ((10:ℚ)^(-1:ℤ)) = 1/10 by
        rw [zpow_neg, show ((10:ℚ)^(1:ℤ)) = 10 by norm_num]
        norm_num]
      norm_num
  simp only [format_sigfigs_no_sci, if_neg (by norm_num : ¬(9999/100000 : ℚ) = 0), hlog]
  rw [show ((3:ℕ):ℤ) - 1 - (-2) = 4 by norm_num]
  have hround : roundTo (9999/100000 : ℚ) 4 = ((1000:ℤ):ℚ) / 10 ^ (4:ℤ) := by
    rw [roundTo]
    have hx : (9999/100000 : ℚ) * 10^(4:ℤ) = 9999/10 := by
      rw [show ((10:ℚ)^(4:ℤ)) = 10000 by norm_num]
      ring
    rw [hx]
    have hfl : ⌊(9999/10 : ℚ)⌋ = 999 := by
      norm_num [Int.floor_eq_iff]
    rw [roundHalfEven_eq_of_gt _ 999 hfl (by norm_num)]
    norm_num
  rw [hround]
  have hmul : ((1000:ℤ):ℚ) / 10 ^ (4:ℤ) * 10 ^ (4:ℤ) = ((1000:ℤ):ℚ) := by
    field_simp
  rw [formatCore_pos_eval _ 4 (by norm_num) 1000 (by norm_num) hmul]
  rw [show ((4:ℤ)).toNat = 4 from rfl]
  rw [show ((1000:ℤ)).toNat = 1000 from rfl]
  rw [show (1000 : ℕ) % 10 ^ 4 = 1000 by norm_num]
  rw [show (1000 : ℕ) / 10 ^ 4 = 0 by norm_num]
  rw [padFrac, natDigitsMsb]
  rw [show Nat.digits 10 1000 = [0, 0, 0, 1] by norm_num [Nat.digits_def']]
  rfl

theorem format_val_tenth : format_sigfigs_no_sci (.num (1/10)) 3 = "0.1" := by
  have hq : (0:ℚ) < 1/10 := by norm_num
  have hlog : Int.log 10 |(1/10 : ℚ)| = -1 := by
    rw [abs_of_pos hq]
    refine logTen_eq _ (-1) hq ?_ ?_
    · rw [show ((10:ℚ)^(-1:ℤ)) = 1/10 by
        rw [zpow_neg, show ((10:ℚ)^(1:ℤ)) = 10 by norm_num]
        norm_num]
    · rw [show ((-1:ℤ) + 1) = 0 from rfl, show ((10:ℚ)^(0:ℤ)) = 1 by norm_num]
      norm_num
  simp only [format_sigfigs_no_sci, if_neg (by norm_num : ¬(1/10 : ℚ) = 0), hlog]
  rw [show ((3:ℕ):ℤ) - 1 - (-1) = 3 by norm_num]
  have hround : roundTo (1/10 : ℚ) 3 = ((100:ℤ):ℚ) / 10 ^ (3:ℤ) := by
    rw [roundTo]
    have hx : (1/10 : ℚ) * 10^(3:ℤ) = 100 := by
      rw [show ((10:ℚ)^(3:ℤ)) = 1000 by norm_num]
      ring
    rw [hx]
    rw [show (100:ℚ) = ((100:ℤ):ℚ) by norm_num, roundHalfEven_intCast]
  rw [hround]
  have hmul : ((100:ℤ):ℚ) / 10 ^ (3:ℤ) * 10 ^ (3:ℤ) = ((100:ℤ):ℚ) := by
    field_simp
  rw [formatCore_pos_eval _ 3 (by norm_num) 100 (by norm_num) hmul]
  rw [show ((3:ℤ)).toNat = 3 from rfl]
  rw [show ((100:ℤ)).toNat = 100 from rfl]
  rw [show (100 : ℕ) % 10 ^ 3 = 100 by norm_num]
  rw [show (100 : ℕ) / 10 ^ 3 = 0 by norm_num]
  rw [padFrac, natDigitsMsb]
  rw [show Nat.digits 10 100 = [0, 0, 1] by norm_num [Nat.digits_def']]
  rfl

/-! ## First-seen deduplication lemmas -/

theorem mem_dedupFirst {x : String} : ∀ {l : List String}, x ∈ dedupFirst l → x ∈ l := by
  intro l
  induction l using dedupFirst.induct with
  | case1 => intro h; simp [dedupFirst] at h
  | case2 y ys ih =>
    intro h
    rw [dedupFirst] at h
    rcases List.mem_cons.mp h with h | h
    · simp [h]
    · exact List.mem_cons_of_mem _ (List.mem_of_mem_filter (ih h))

theorem dedupFirst_nodup : ∀ (l : List String), (dedupFirst l).Nodup := by
  intro l
  induction l using dedupFirst.induct with
  | case1 => simp [dedupFirst]
  | case2 y ys ih =>
    rw [dedupFirst]
    refine List.nodup_cons.mpr ⟨?_, ih⟩
    intro hmem
    have := List.of_mem_filter (mem_dedupFirst hmem)
    simp at this

theorem foldl_addCandidate_eq (l : List JVal) :
    ∀ acc : List String,
      l.foldl addCandidate acc =
        acc ++ dedupFirst (((l.map candidateToString).filter
          (fun s => !(s == "") && !(acc.contains s)))) := by
  induction l with
  | nil => intro acc; simp [dedupFirst]
  | cons c t ih =>
    intro acc
    simp only [List.foldl_cons, List.map_cons, List.filter_cons]
    by_cases h0 : candidateToString c = ""
    · have hb : (candidateToString c == "") = true := beq_iff_eq.mpr h0
      have hstep : addCandidate acc c = acc := by
        simp [addCandidate, h0]
      rw [hstep, ih acc]
      rw [show (!(candidateToString c == "") && !(acc.contains (candidateToString c)))
          = false from by rw [hb]; rfl]
      simp
    · have hb : (candidateToString c == "") = false := beq_eq_false_iff_ne.mpr h0
      by_cases hseen : acc.contains (candidateToString c)
      · have hstep : addCandidate acc c = acc := by
          simp only [addCandidate]
          rw [if_neg h0, if_pos hseen]
        rw [hstep, ih acc]
        rw [show (!(candidateToString c == "") && !(acc.contains (candidateToString c)))
            = false from by rw [hseen]; simp]
        simp
      · have hcf : acc.contains (candidateToString c) = false := by
          simpa using hseen
        have hstep : addCandidate acc c = acc ++ [candidateToString c] := by
          simp only [addCandidate]
          rw [if_neg h0, if_neg (by simpa using hseen)]
        rw [hstep, ih (acc ++ [candidateToString c])]
        rw [show (!(candidateToString c == "") && !(acc.contains (candidateToString c)))
            = true from by rw [hb, hcf]; rfl]
        simp only [if_pos]
        rw [dedupFirst, List.append_assoc, List.singleton_append]
        congr 2
        rw [List.filter_filter]
        apply congrArg dedupFirst
        apply List.filter_congr
        intro x _
        by_cases h1 : x = "" <;> by_cases h2 : x ∈ acc <;>
          by_cases h3 : x = candidateToString c <;>
          simp [h1, h2, h3]

/-! ## Keyed first-occurrence deduplication lemmas -/

/-- `drop_duplicates(keep="first")`, specification form. -/
def dedupByKeyFirst (key : Row → String) : List Row → List Row
  | [] => []
  | r :: rest => r :: dedupByKeyFirst key (rest.filter (fun x => !(key x == key r)))
termination_by l => l.length
decreasing_by
  simp only [List.length_cons]
  exact Nat.lt_succ_of_le (List.length_filter_le _ _)

theorem foldl_dropDup_eq (key : Row → String) (l : List Row) :
    ∀ (acc : List Row),
      (l.foldl (fun acc r =>
          if acc.2.contains (key r) then acc
          else (acc.1 ++ [r], acc.2 ++ [key r])) (acc, acc.map key)).1 =
        acc ++ dedupByKeyFirst key
          (l.filter (fun r => !((acc.map key).contains (key r)))) := by
  induction l with
  | nil => intro acc; simp [dedupByKeyFirst]
  | cons c t ih =>
    intro acc
    simp only [List.foldl_cons, List.filter_cons]
    by_cases hseen : (acc.map key).contains (key c)
    · rw [if_pos hseen]
      rw [show (!((acc.map key).contains (key c))) = false from by rw [hseen]; rfl]
      simp only [Bool.false_eq_true, if_false]
      exact ih acc
    · have hcf : (acc.map key).contains (key c) = false := by simpa using hseen
      rw [if_neg hseen]
      rw [show (!((acc.map key).contains (key c))) = true from by rw [hcf]; rfl]
      simp only [if_true]
      have hmap : acc.map key ++ [key c] = (acc ++ [c]).map key := by simp
      rw [hmap, ih (acc ++ [c])]
      rw [dedupByKeyFirst, List.append_assoc, List.singleton_append]
      congr 2
      rw [List.filter_filter]
      apply congrArg (dedupByKeyFirst key)
      apply List.filter_congr
      intro x _
      by_cases h2 : key x ∈ acc.map key <;> by_cases h3 : key x = key c <;>
        simp [h2, h3]

theorem dropDupByKey_eq (key : Row → String) (l : List Row) :
    dropDupByKey key l = dedupByKeyFirst key l := by
  have := foldl_dropDup_eq key l []
  simpa [dropDupByKey] using this

theorem mem_dedupByKeyFirst {key : Row → String} {x : Row} :
    ∀ {l : List Row}, x ∈ dedupByKeyFirst key l → x ∈ l := by
  intro l
  induction l using dedupByKeyFirst.induct key with
  | case1 => intro h; simp [dedupByKeyFirst] at h
  | case2 y ys ih =>
    intro h
    rw [dedupByKeyFirst] at h
    rcases List.mem_cons.mp h with h | h
    · simp [h]
    · exact List.mem_cons_of_mem _ (List.mem_of_mem_filter (ih h))

theorem dedupByKeyFirst_keys_nodup (key : Row → String) :
    ∀ (l : List Row), ((dedupByKeyFirst key l).map key).Nodup := by
  intro l
  induction l using dedupByKeyFirst.induct key with
  | case1 => simp [dedupByKeyFirst]
  | case2 y ys ih =>
    rw [dedupByKeyFirst]
    simp only [List.map_cons]
    refine List.nodup_cons.mpr ⟨?_, ih⟩
    intro hmem
    rcases List.mem_map.mp hmem with ⟨x, hx, hkx⟩
    have := List.of_mem_filter (mem_dedupByKeyFirst hx)
    simp [hkx] at this

theorem find?_filter_of_imp (p q : Row → Bool) (l : List Row)
    (h : ∀ y, q y = false → p y = false) :
    (l.filter q).find? p = l.find? p := by
  induction l with
  | nil => rfl
  | cons c t ih =>
    simp only [List.filter_cons]
    by_cases hq : q c
    · rw [if_pos hq]
      by_cases hp : p c
      · simp [List.find?_cons, hp]
      · simp only [List.find?_cons, Bool.not_eq_true] at hp ⊢
        rw [show p c = false by simpa using hp]
        exact ih
    · rw [if_neg hq]
      have hp : p c = false := h c (by simpa using hq)
      rw [ih]
      simp [List.find?_cons, hp]

theorem dedupByKeyFirst_find? (key : Row → String) {x : Row} :
    ∀ {l : List Row}, x ∈ dedupByKeyFirst key l →
      l.find? (fun y => key y == key x) = some x := by
  intro l
  induction l using dedupByKeyFirst.induct key with
  | case1 => intro h; simp [dedupByKeyFirst] at h
  | case2 y ys ih =>
    intro h
    rw [dedupByKeyFirst] at h
    rcases List.mem_cons.mp h with h | h
    · subst h
      exact List.find?_cons_of_pos _ (by simp)
    · have hne : (key x == key y) = false := by
        have := List.of_mem_filter (mem_dedupByKeyFirst h)
        simpa using this
      have hy : ¬((fun z => key z == key x) y = true) := by
        simp only [beq_eq_false_iff_ne] at hne
        simp only [beq_iff_eq]
        exact fun hcontra => hne hcontra.symm
      have hstep : List.find? (fun z => key z == key x) (y :: ys)
          = List.find? (fun z => key z == key x) ys :=
        List.find?_cons_of_neg ys hy
      rw [hstep]
      rw [← find?_filter_of_imp (fun z => key z == key x)
        (fun z => !(key z == key y)) ys ?_]
      · exact ih h
      · intro z hz
        have hzy : key z = key y := by
          have hb2 : (key z == key y) = true := by
            have hz2 : (!(key z == key y)) = false := hz
            cases hb : (key z == key y)
            · rw [hb] at hz2
              simp at hz2
            · rfl
          exact beq_iff_eq.mp hb2
        simp only [beq_eq_false_iff_ne] at hne
        rw [beq_eq_false_iff_ne]
        intro hcontra
        exact hne (hcontra.symm.trans hzy)

/-! ## Support lemmas for the remaining claims -/

theorem process_batch_error_iff (df : List Row)
    (info : List (String × SampleInfo)) :
    (∃ e, process_batch_dataframe df info = .error e) ↔
      df.filter (fun r => r.includeFlag) = [] := by
  simp only [process_batch_dataframe]
  by_cases h : (df.filter (fun r => r.includeFlag)).isEmpty
  · rw [if_pos h]
    simp [List.isEmpty_iff.mp h]
  · rw [if_neg h]
    rw [List.isEmpty_iff] at h
    simp [h]

theorem isDigit_not_pyspace {c : Char} (h : c.isDigit = true) :
    isPySpace c = false := by
  by_contra hc
  rw [Bool.not_eq_false] at hc
  simp only [isPySpace, Bool.or_eq_true, decide_eq_true_eq] at hc
  rcases hc with ((((rfl | rfl) | rfl) | rfl) | rfl) | rfl <;>
    exact absurd h (by decide)

/-- The dedup-tier canonicalization never strips a trailing
space-plus-digit suffix whose digit is not `'1'`. -/
theorem map_component_no_strip (s : String) (d : Char) (hd : d.isDigit = true)
    (hne : d ≠ '1') :
    map_component_to_analyte (String.mk (s.toList ++ [' ', d]))
      = String.mk (stripChars (s.toList ++ [' ', d])) := by
  have hwsd : isPySpace d = false := isDigit_not_pyspace hd
  have hsuf : (stripChars ((String.mk (s.toList ++ [' ', d])).toList)).reverse.take 2
      ≠ ['1', ' '] := by
    rw [toList_mk]
    simp only [stripChars, List.reverse_reverse]
    set u := (s.toList ++ [' ', d]).dropWhile isPySpace with hu
    have hucase : u = [d] ∨ ∃ v, v ≠ [] ∧ u = v ++ [' ', d] := by
      rw [hu, List.dropWhile_append]
      by_cases hv : ((s.toList.dropWhile isPySpace)).isEmpty
      · left
        rw [if_pos hv]
        rw [show List.dropWhile isPySpace [' ', d] = [d] by
          rw [List.dropWhile_cons_of_pos (by decide)]
          exact List.dropWhile_cons_of_neg (by simp [hwsd])]
      · right
        refine ⟨s.toList.dropWhile isPySpace, ?_, ?_⟩
        · simpa [List.isEmpty_iff] using hv
        · rw [if_neg hv]
    rcases hucase with hcase | ⟨v, hvne, hcase⟩
    · rw [hcase]
      rw [show ([d] : List Char).reverse = [d] from rfl]
      rw [List.dropWhile_cons_of_neg (by simp [hwsd])]
      simp
    · rw [hcase]
      rw [show (v ++ [' ', d]).reverse = d :: ' ' :: v.reverse by simp]
      rw [List.dropWhile_cons_of_neg (by simp [hwsd])]
      intro hcontra
      rw [show List.take 2 (d :: ' ' :: v.reverse) = [d, ' '] from rfl] at hcontra
      simp at hcontra
      exact hne hcontra
  simp only [map_component_to_analyte]
  rw [if_neg hsuf, toList_mk]

theorem build_full_names (sample : ProcessedSample) :
    (build_full_analyte_table sample).map (fun r => r.analyteName) = ANALYTES := by
  simp only [build_full_analyte_table]
  rw [List.map_map]
  conv_rhs => rw [← List.map_id ANALYTES]
  apply List.map_congr_left
  intro a _
  cases hlook : lookupLastByNormComponent sample.results a <;>
    simp [Function.comp, hlook]

/-- The include-flagged rows of one sample that carry a numeric
concentration, in dataframe order. -/
def eligibleRows (df : List Row) (key : String) : List Row :=
  df.filter (fun r => r.includeFlag && (r.sample == key) && !r.calc_conc.isNan)

theorem eligibleRows_eq (df : List Row) (key : String) :
    ((df.filter (fun r => r.includeFlag)).filter
      (fun r => r.sample == key)).filter (fun r => !r.calc_conc.isNan)
      = eligibleRows df key := by
  simp only [eligibleRows]
  rw [List.filter_filter, List.filter_filter]
  apply List.filter_congr
  intro x _
  cases h1 : x.includeFlag <;> cases h2 : (x.sample == key)
    <;> cases h3 : x.calc_conc.isNan <;> simp [h1, h2, h3]

theorem reqLoop_step_http_error (script : ℕ → HttpOutcome) (k r : ℕ) (delay : ℚ)
    (sleeps : List ℚ) (s : ℕ) (ttl : Option ℤ) (h4 : 400 ≤ s) (h6 : s < 600)
    (h429 : s ≠ 429) (h401 : s ≠ 401) (hscript : script k = .resp s ttl) :
    reqLoop script k (r + 1) delay sleeps =
      if r = 0 then (.errWrapped, sleeps)
      else reqLoop script (k + 1) r (delay * 2) (sleeps ++ [delay]) := by
  simp only [reqLoop, hscript]
  rw [if_neg h429, if_neg h401, if_pos ⟨h4, h6⟩]

theorem reqLoop_step_success (script : ℕ → HttpOutcome) (k r : ℕ) (delay : ℚ)
    (sleeps : List ℚ) (s : ℕ) (ttl : Option ℤ) (hok : ¬(400 ≤ s ∧ s < 600))
    (h429 : s ≠ 429) (h401 : s ≠ 401) (hscript : script k = .resp s ttl) :
    reqLoop script k (r + 1) delay sleeps = (.ok s, sleeps) := by
  simp only [reqLoop, hscript]
  rw [if_neg h429, if_neg h401, if_neg hok]

/-! ## Claim theorems -/

/-- C2, counterexample: a non-2xx status other than 429/401 is *not*
raised immediately.  A 500 on the first attempt is followed by a
backoff sleep and a retry that succeeds, and a permanent 404 consumes
all five attempts (with four backoff sleeps) before an error
surfaces — contradicting "raises immediately on the attempt that
received it, without sleeping, without retrying, and without consuming
further attempts". -/
theorem claim_C2_counterexample :
    request (fun k => if k = 0 then .resp 500 none else .resp 200 none)
      = (.ok 200, [1]) ∧
    (request (fun k => if k = 0 then .resp 500 none else .resp 200 none)).2 ≠ [] ∧
    (request (fun _ => .resp 404 none)).1 = .errWrapped ∧
    (request (fun _ => .resp 404 none)).2.length = 4 := by
  refine ⟨rfl, ?_, rfl, rfl⟩
  intro h
  have : ([1] : List ℚ) = [] := by
    rw [show request (fun k => if k = 0 then .resp 500 none else .resp 200 none)
      = (.ok 200, [1]) from rfl] at h
    exact h
  simp at this

/-- C2, amended: in `_request`, `raise_for_status`'s `HTTPError` for a
400..599 status other than 429/401 is caught by the generic
`except requests.RequestException` handler of the same loop: on the
final attempt the error surfaces as a wrapped `QBenchError`, on any
earlier attempt the client sleeps the current backoff delay, doubles
it, and retries; a status outside 400..599 (other than 429/401) is
returned as a success immediately. -/
theorem claim_C2_amended (script : ℕ → HttpOutcome) (k r : ℕ) (delay : ℚ)
    (sleeps : List ℚ) (s : ℕ) (ttl : Option ℤ)
    (hscript : script k = .resp s ttl) (h429 : s ≠ 429) (h401 : s ≠ 401) :
    ((400 ≤ s ∧ s < 600) →
      reqLoop script k (r + 1) delay sleeps =
        if r = 0 then (.errWrapped, sleeps)
        else reqLoop script (k + 1) r (delay * 2) (sleeps ++ [delay])) ∧
    (¬(400 ≤ s ∧ s < 600) →
      reqLoop script k (r + 1) delay sleeps = (.ok s, sleeps)) := by
  constructor
  · intro h
    exact reqLoop_step_http_error script k r delay sleeps s ttl h.1 h.2 h429 h401 hscript
  · intro h
    exact reqLoop_step_success script k r delay sleeps s ttl h h429 h401 hscript

/-- C2, witness for the amended theorem: a 500 on attempt 1 of 5
sleeps the 1-second delay and retries. -/
theorem claim_C2_amended_witness :
    reqLoop (fun _ => .resp 500 none) 0 (4 + 1) 1 []
      = reqLoop (fun _ => .resp 500 none) 1 4 (1 * 2) ([] ++ [1]) := by
  have h := (claim_C2_amended (fun _ => .resp 500 none) 0 4 1 [] 500 none rfl
    (by decide) (by decide)).1 (by decide)
  simpa using h

/-- C3: evaluated at the repository's own test inputs, the final
fallback tier of the weight heuristic does *not* match a key containing
"mass" (the test `test_extract_sample_weight_from_custom_fields`
expects `{"Mass (mg)": "12,345 mg"}` to be found), *does* match a key
containing "trip" (no exclusion exists in the code), and also matches
the Spanish token "peso" — the match set in the source is
`'weight' in key.lower() or 'peso' in key.lower()`. -/
theorem claim_C3_search_container_behaviour :
    search_container (.jdict [("Mass (mg)", .jstr "12,345 mg")]) = .jstr "" ∧
    search_container (.jdict [("Trip Weight", .jstr "700")]) = .jstr "700" ∧
    search_container (.jdict [("Peso seco", .jstr "5")]) = .jstr "5" :=
  ⟨rfl, rfl, rfl⟩

/-- C4: evaluated at the repository's own test inputs,
`normalize_output` only strips surrounding whitespace from strings — it
does not extract a leading numeric token and does not remove thousands
separators (the tests expect `" 23 g" → "23"` and
`"12,345 mg" → "12345"`); numeric values pass through unchanged, and
`None`/dict/list inputs normalize to the empty string. -/
theorem claim_C4_normalize_output_behaviour :
    normalize_output (.jstr " 23 g") = .jstr "23 g" ∧
    normalize_output (.jstr "12,345 mg") = .jstr "12,345 mg" ∧
    normalize_output (.jint 3) = .jint 3 ∧
    normalize_output (.jfloat (Rat.mk' 25 2)) = .jfloat (Rat.mk' 25 2) ∧
    normalize_output .jnull = .jstr "" ∧
    normalize_output (.jdict []) = .jstr "" :=
  ⟨rfl, rfl, rfl, rfl, rfl, rfl⟩

/-- C5, counterexample: the canonicalization used before deduplication
(`map_component_to_analyte`) strips only the exact suffix `" 1"`; a
trailing `" 2"` or `" 12"` is left in place, so it differs from the
claimed "single space followed by one or more digits" rule and from the
export-table normalization `_normalize_component_name` on the same
input. -/
theorem claim_C5_counterexample :
    map_component_to_analyte "Bifenthrin 2" = "Bifenthrin 2" ∧
    map_component_to_analyte "Bifenthrin 2" ≠ "Bifenthrin" ∧
    map_component_to_analyte "Bifenthrin 12" = "Bifenthrin 12" ∧
    map_component_to_analyte "Bifenthrin 2"
      ≠ normalize_component_name "Bifenthrin 2" := by
  refine ⟨rfl, by decide, rfl, by decide⟩

/-- C5, amended: `map_component_to_analyte` (used before analyte
deduplication) strips exactly the two-character suffix `" 1"` from the
whitespace-stripped label and never a space-plus-digit suffix with any
other digit, while `_normalize_component_name` (used by the full
analyte table's lookup) strips any trailing whitespace-plus-digits
block. -/
theorem claim_C5_amended :
    map_component_to_analyte "Bifenthrin 1" = "Bifenthrin" ∧
    map_component_to_analyte " Bifenthrin 1 " = "Bifenthrin" ∧
    (∀ (s : String) (d : Char), d.isDigit = true → d ≠ '1' →
      map_component_to_analyte (String.mk (s.toList ++ [' ', d]))
        = String.mk (stripChars (s.toList ++ [' ', d]))) ∧
    normalize_component_name "Bifenthrin 1" = "Bifenthrin" ∧
    normalize_component_name "Bifenthrin 2" = "Bifenthrin" ∧
    normalize_component_name "Bifenthrin 12" = "Bifenthrin" ∧
    normalize_component_name "Bifenthrin  2" = "Bifenthrin" ∧
    normalize_component_name "Bifenthrin" = "Bifenthrin" :=
  ⟨rfl, rfl, map_component_no_strip, rfl, rfl, rfl, rfl, rfl⟩

/-- C5, witness for the amended theorem: a trailing `" 2"` is not
stripped by the dedup-tier canonicalization. -/
theorem claim_C5_amended_witness :
    map_component_to_analyte (String.mk ("X".toList ++ [' ', '2']))
      = String.mk (stripChars ("X".toList ++ [' ', '2'])) :=
  claim_C5_amended.2.2.1 "X" '2' (by decide) (by decide)

/-- C6, counterexample: the state-limit table has 59 entries, not 62. -/
theorem claim_C6_counterexample :
    STATE_LIMITS.length = 59 ∧ STATE_LIMITS.length ≠ 62 :=
  ⟨rfl, by decide⟩

/-- C6, amended: `STATE_LIMITS` maps exactly 59 distinct analyte names
to positive regulatory limits; the limit of quantitation is the single
constant `0.1`; and the full analyte table built for export has exactly
one row per analyte of the table, in the table's order.  (The table is
a module-level constant; in this pure embedding nothing can mutate
it.) -/
theorem claim_C6_amended :
    STATE_LIMITS.length = 59 ∧
    ANALYTES.Nodup ∧
    (∀ p ∈ STATE_LIMITS, 0 < p.2) ∧
    LOQ = 1 / 10 ∧
    (∀ sample : ProcessedSample,
      (build_full_analyte_table sample).map (fun r => r.analyteName) = ANALYTES) :=
  ⟨rfl, by decide, by decide, LOQ_eq, build_full_names⟩

/-- C7, counterexample: an input whose only include-flagged row has a
non-numeric concentration makes every sample lose all its rows, yet
`process_batch_dataframe` returns normally with an empty output instead
of raising. -/
theorem claim_C7_counterexample :
    process_batch_dataframe
      [{ sample := "42", component := "Bifenthrin", calc_conc := .nan,
         dilution_factor := .nan, includeFlag := true }] []
      = .ok { samples := [], display_rows := [] } ∧
    ([{ sample := "42", component := "Bifenthrin", calc_conc := .nan,
        dilution_factor := .nan, includeFlag := true }] : List Row).filter
      (fun r => r.includeFlag) ≠ [] := by
  refine ⟨rfl, by decide⟩

/-- C7, amended: `process_batch_dataframe` raises its single fatal
validation error exactly when the input has no include-flagged rows;
in every other case — including when every include-flagged sample
loses all its rows to the non-numeric-concentration drop — it returns
normally (possibly with an empty sample list), and it never raises for
malformed individual values. -/
theorem claim_C7_amended (df : List Row) (info : List (String × SampleInfo)) :
    (∃ e, process_batch_dataframe df info = .error e) ↔
      df.filter (fun r => r.includeFlag) = [] :=
  process_batch_error_iff df info

/-- C1: `_compute_final_result` returns `"0"` for a missing/NaN amount;
`"ND"` for a zero amount; `"Invalid Mass"` for a missing, NaN, or
non-positive mass; and otherwise classifies
`result = (amount / mass_mg) * dilution_factor` — with a missing/NaN
dilution factor replaced by `0` — as `"ND"` exactly when
`result < LOQ = 0.1` and as the 3-significant-figure formatted number
otherwise; in particular a result of exactly `0.1` formats as `"0.1"`,
not `"ND"`. -/
theorem claim_C1_final_result :
    (∀ mass dil, compute_final_result .nan mass dil = "0") ∧
    (∀ mass dil, compute_final_result (.num 0) mass dil = "ND") ∧
    (∀ (q : ℚ) dil, q ≠ 0 →
      compute_final_result (.num q) none dil = "Invalid Mass") ∧
    (∀ (q : ℚ) dil, q ≠ 0 →
      compute_final_result (.num q) (some .nan) dil = "Invalid Mass") ∧
    (∀ (q m : ℚ) dil, q ≠ 0 → m ≤ 0 →
      compute_final_result (.num q) (some (.num m)) dil = "Invalid Mass") ∧
    (∀ (q m : ℚ) (dil : Option FVal), q ≠ 0 → 0 < m →
      compute_final_result (.num q) (some (.num m)) dil =
        if (q / m) * dilutionDefaultZero dil < LOQ then "ND"
        else format_sigfigs_no_sci (.num ((q / m) * dilutionDefaultZero dil)) 3) ∧
    (dilutionDefaultZero none = 0 ∧ dilutionDefaultZero (some .nan) = 0 ∧
      ∀ x : ℚ, dilutionDefaultZero (some (.num x)) = x) ∧
    LOQ = 1 / 10 ∧
    compute_final_result (.num 5) (some (.num 100)) (some (.num 2)) = "0.1" := by
  refine ⟨fun mass dil => rfl, fun mass dil => by simp [compute_final_result],
    fun q dil hq => by simp [compute_final_result, hq],
    fun q dil hq => by simp [compute_final_result, hq],
    fun q m dil hq hm => by simp [compute_final_result, hq, hm],
    fun q m dil hq hm => ?_, ⟨rfl, rfl, fun x => rfl⟩, LOQ_eq, ?_⟩
  · simp only [compute_final_result]
    rw [if_neg hq, if_neg (not_le.mpr hm)]
  · simp only [compute_final_result, dilutionDefaultZero]
    rw [if_neg (by norm_num : ¬(5:ℚ) = 0), if_neg (by norm_num : ¬(100:ℚ) ≤ 0)]
    rw [show (5:ℚ)/100 * 2 = 1/10 by norm_num]
    rw [if_neg (by rw [LOQ_eq]; norm_num)]
    exact format_val_tenth

/-- C1, witness: a NaN mass yields `"Invalid Mass"` at a concrete
input, and the exact-LOQ scenario formats as `"0.1"`. -/
theorem claim_C1_final_result_witness :
    compute_final_result (.num 5) (some .nan) none = "Invalid Mass" ∧
    compute_final_result (.num 5) (some (.num 100)) (some (.num 2)) = "0.1" :=
  ⟨claim_C1_final_result.2.2.2.1 5 none (by decide),
    claim_C1_final_result.2.2.2.2.2.2.2.2⟩

/-- C8: for every positive value the formatter's output string reads
back as exactly the half-to-even 3-significant-figure rounding of the
value, is a minimal plain-decimal rendering (never scientific, no
trailing fractional zero, no trailing point), and re-formatting the
rounded value returns the same string; zero and non-finite inputs
return `"0"`; and `_format(12345.6, 3) = "12300"`,
`_format(0.09999, 3) = "0.1"`, `_format(0, 3) = "0"`. -/
theorem claim_C8_format_sigfigs :
    (∀ q : ℚ, 0 < q →
      parseDecRat (format_sigfigs_no_sci (.num q) 3) = roundToSigFigs 3 q) ∧
    (∀ q : ℚ, 0 < q →
      plainDecimalMinimal (format_sigfigs_no_sci (.num q) 3) = true) ∧
    (∀ q : ℚ, 0 < q →
      format_sigfigs_no_sci (.num (roundToSigFigs 3 q)) 3
        = format_sigfigs_no_sci (.num q) 3) ∧
    format_sigfigs_no_sci (.num (123456/10)) 3 = "12300" ∧
    format_sigfigs_no_sci (.num (9999/100000)) 3 = "0.1" ∧
    format_sigfigs_no_sci (.num 0) 3 = "0" ∧
    format_sigfigs_no_sci .nan 3 = "0" :=
  ⟨parse_format_sigfigs, plain_format_sigfigs, format_sigfigs_idem,
    format_val_123456_tenth, format_val_9999_hundredthousandth,
    format_zero, format_nan⟩

/-- C8, witness: the parse-back law applied at the value `1/2`. -/
theorem claim_C8_format_sigfigs_witness :
    parseDecRat (format_sigfigs_no_sci (.num (Rat.mk' 1 2)) 3)
      = roundToSigFigs 3 (Rat.mk' 1 2) :=
  claim_C8_format_sigfigs.1 (Rat.mk' 1 2) (by decide)

/-- C9: sample-id extraction merges the recognized shapes into the
first-seen-order deduplication of the non-empty candidate strings — so
the result preserves first-seen order and holds no duplicate string —
and integer scalars stringify without a trailing `".0"`; the spec's
merge example holds verbatim. -/
theorem claim_C9_extract_sample_ids :
    (∀ payload : JVal, extract_sample_ids_from_batch payload =
      dedupFirst (((allBatchCandidates payload).map candidateToString).filter
        (fun s => !(s == "")))) ∧
    (∀ payload : JVal, (extract_sample_ids_from_batch payload).Nodup) ∧
    extract_sample_ids_from_batch (.jdict [("data", .jdict [
      ("sample_ids", .jlist [.jint 1, .jstr "002", .jint 3]),
      ("samples", .jlist [.jdict [("id", .jstr "005")]])])])
      = ["1", "002", "3", "005"] ∧
    (∀ n : ℤ, candidateToString (.jint n) = toString n) ∧
    candidateToString (.jfloat 5) = "5" := by
  have hmain : ∀ payload : JVal, extract_sample_ids_from_batch payload =
      dedupFirst (((allBatchCandidates payload).map candidateToString).filter
        (fun s => !(s == ""))) := by
    intro payload
    cases payload with
    | jdict pl0 =>
      simp only [extract_sample_ids_from_batch, allBatchCandidates]
      rw [foldl_addCandidate_eq _ []]
      simp only [List.nil_append]
      apply congrArg dedupFirst
      apply List.filter_congr
      intro x _
      simp [List.contains]
    | jnull => simp [extract_sample_ids_from_batch, allBatchCandidates, dedupFirst]
    | jstr s => simp [extract_sample_ids_from_batch, allBatchCandidates, dedupFirst]
    | jint n => simp [extract_sample_ids_from_batch, allBatchCandidates, dedupFirst]
    | jfloat q => simp [extract_sample_ids_from_batch, allBatchCandidates, dedupFirst]
    | jlist l => simp [extract_sample_ids_from_batch, allBatchCandidates, dedupFirst]
  refine ⟨hmain, fun payload => ?_, rfl, fun n => rfl, rfl⟩
  rw [hmain payload]
  exact dedupFirst_nodup _

/-- The analyte names of any result list built by mapping over a
key-deduplicated row list are pairwise distinct, provided the builder's
analyte field is the dedup key. -/
theorem nodup_map_analyte_of_key (l : List Row)
    (mk : Row → ProcessedAnalyte)
    (hmk : ∀ r, (mk r).analyte = map_component_to_analyte r.component) :
    (((dropDupByKey (fun r => map_component_to_analyte r.component) l).map mk).map
      (fun a => a.analyte)).Nodup := by
  rw [List.map_map]
  have hcomp : ((fun a : ProcessedAnalyte => a.analyte) ∘ mk)
      = fun r : Row => map_component_to_analyte r.component := funext fun r => hmk r
  rw [hcomp, dropDupByKey_eq]
  exact dedupByKeyFirst_keys_nodup _ _

/-- Every result built from the deduplicated subset of a sample's rows
comes from the first eligible row of its canonical analyte name. -/
theorem find_row_for_result (df : List Row) (key : String)
    (mk : Row → ProcessedAnalyte)
    (hmk : ∀ x : Row, (mk x).analyte = map_component_to_analyte x.component ∧
      (mk x).component = x.component ∧
      (mk x).calc_conc = (x.calc_conc.toOption).getD 0)
    (r : ProcessedAnalyte)
    (hr : r ∈ (dropDupByKey (fun x => map_component_to_analyte x.component)
      (((df.filter (fun x => x.includeFlag)).filter
        (fun x => x.sample == key)).filter (fun x => !x.calc_conc.isNan))).map mk) :
    ∃ row : Row,
      (eligibleRows df key).find?
        (fun x => map_component_to_analyte x.component == r.analyte) = some row ∧
      r.analyte = map_component_to_analyte row.component ∧
      r.component = row.component ∧
      r.calc_conc = (row.calc_conc.toOption).getD 0 := by
  obtain ⟨row, hrowmem, rfl⟩ := List.mem_map.mp hr
  refine ⟨row, ?_, (hmk row).1, (hmk row).2.1, (hmk row).2.2⟩
  rw [dropDupByKey_eq] at hrowmem
  have hfind := dedupByKeyFirst_find?
    (fun x => map_component_to_analyte x.component) hrowmem
  rw [eligibleRows_eq] at hfind
  rw [show (mk row).analyte = map_component_to_analyte row.component
    from (hmk row).1]
  exact hfind

/-- C10: in every successfully processed batch, each emitted sample's
result list has pairwise-distinct analyte names, and each result is
built from the *first* eligible row (include-flagged, matching sample,
non-NaN concentration, in original order) whose canonical analyte name
equals the result's analyte — duplicates by canonical analyte keep the
first occurrence. -/
theorem claim_C10_dedup_keeps_first (df : List Row)
    (info : List (String × SampleInfo)) (out : BatchProcessOutput)
    (hok : process_batch_dataframe df info = .ok out)
    (ps : ProcessedSample) (hps : ps ∈ out.samples) :
    (ps.results.map (fun r => r.analyte)).Nodup ∧
    ∀ r ∈ ps.results, ∃ row : Row,
      (eligibleRows df ps.sample).find?
        (fun x => map_component_to_analyte x.component == r.analyte) = some row ∧
      r.analyte = map_component_to_analyte row.component ∧
      r.component = row.component ∧
      r.calc_conc = (row.calc_conc.toOption).getD 0 := by
  simp only [process_batch_dataframe] at hok
  by_cases hemp : (df.filter (fun r => r.includeFlag)).isEmpty
  · rw [if_pos hemp] at hok
    exact absurd hok (by simp)
  · rw [if_neg hemp] at hok
    have hsamples : out.samples =
        ((pyDedup ((df.filter (fun r => r.includeFlag)).map
          (fun r => r.sample))).filterMap
            (processOneSample (df.filter (fun r => r.includeFlag)) info)).map
              (fun p => p.1) := by
      rw [← Except.ok.inj hok]
    rw [hsamples] at hps
    obtain ⟨pair, hpairmem, hpair⟩ := List.mem_map.mp hps
    obtain ⟨key, hkeymem, hpone⟩ := List.mem_filterMap.mp hpairmem
    simp only [processOneSample] at hpone
    by_cases h1 : ((df.filter (fun r => r.includeFlag)).filter
        (fun r => r.sample == key)).isEmpty
    · rw [if_pos h1] at hpone
      exact absurd hpone (by simp)
    · rw [if_neg h1] at hpone
      by_cases h2 : (dropDupByKey (fun r => map_component_to_analyte r.component)
          (((df.filter (fun r => r.includeFlag)).filter
            (fun r => r.sample == key)).filter
              (fun r => !r.calc_conc.isNan))).isEmpty
      · rw [if_pos h2] at hpone
        exact absurd hpone (by simp)
      · rw [if_neg h2] at hpone
        have hpair2 := Option.some.inj hpone
        subst hpair
        rw [← hpair2]
        refine ⟨nodup_map_analyte_of_key _ _ (fun x => rfl), ?_⟩
        intro r hr
        exact find_row_for_result df key _ (fun x => ⟨rfl, rfl, rfl⟩) r hr

/-- A concrete one-row batch. -/
def wRowC10 : Row :=
  { sample := "1", component := "Abamectin", calc_conc := .num 0,
    dilution_factor := .nan, includeFlag := true }

/-- The processed sample produced from `wRowC10`. -/
def wPSC10 : ProcessedSample :=
  { sample := "1", batch_number := none, sample_name := none,
    custom_formatted_id := none, sample_date := none,
    dilution_factor := none, mass_mg := none,
    results := [{ analyte := "Abamectin", component := "Abamectin",
                  calc_conc := 0, final_result := "ND",
                  status := "Pass", dil := "-" }] }

/-- The full batch output produced from `wRowC10`. -/
def wOutC10 : BatchProcessOutput :=
  { samples := [wPSC10],
    display_rows := [{ sample := "1", component := "Abamectin",
                       status := "Pass", dil := "-" }] }

/-- C10, witness: the invariant applied to a concrete one-row batch. -/
theorem claim_C10_dedup_keeps_first_witness :
    (wPSC10.results.map (fun r => r.analyte)).Nodup ∧
    ∀ r ∈ wPSC10.results, ∃ row : Row,
      (eligibleRows [wRowC10] wPSC10.sample).find?
        (fun x => map_component_to_analyte x.component == r.analyte) = some row ∧
      r.analyte = map_component_to_analyte row.component ∧
      r.component = row.component ∧
      r.calc_conc = (row.calc_conc.toOption).getD 0 :=
  claim_C10_dedup_keeps_first [wRowC10] [] wOutC10 rfl wPSC10
    (by simp [wOutC10])
